import Mathlib

/-!
Shallow embedding of the comparison core of the `extract-dblabware-info`
repository — the schema comparator (`modules/comparabd.py`) and the events
comparator with its formula reference extractor
(`modules/compare_events.py`) — together with proofs of the specification
claims about them.

The pandas DataFrames the code manipulates are modelled as a list of
column names plus a list of rows of cell values; `NaN`/`None` cells are a
dedicated `Value.null` constructor.  Python dictionaries keyed by source
name are modelled as association lists in insertion order (Python dict
keys are unique and iterate in insertion order).
-/

/-- A cell value of a DataFrame as the comparison code uses it: a string,
an integral number, or a null (`NaN`/`None`).  `pd.isna v` corresponds to
`v = Value.null`. -/
inductive Value where
  | str (s : String)
  | num (n : Int)
  | null
deriving DecidableEq, Repr

/-- Lexicographic comparison of character lists by code points, the
order Python uses on strings. -/
def strLeAux : List Char → List Char → Bool
  | [], _ => true
  | _ :: _, [] => false
  | a :: as, b :: bs => if a == b then strLeAux as bs else decide (a < b)

/-- Python `<=` on strings: lexicographic by code points. -/
def strLe (a b : String) : Bool := strLeAux a.data b.data

/-- Total order on cell values, modelling Python `sorted(...)` over the
identifier sets the code sorts.  String cells (the only kind the code
ever sorts in practice) are ordered exactly as Python orders strings, by
code points. -/
def Value.le : Value → Value → Bool
  | .null, _ => true
  | .num _, .null => false
  | .num m, .num n => decide (m ≤ n)
  | .num _, .str _ => true
  | .str _, .null => false
  | .str _, .num _ => false
  | .str s, .str t => strLe s t

/-- Python `str(...)` applied to a cell value. -/
def Value.pyStr : Value → String
  | .str s => s
  | .num n => toString n
  | .null => "None"

/-- A pandas DataFrame: column names plus rows of cell values
positionally aligned with `cols`. -/
structure DataFrame where
  cols : List String
  rows : List (List Value)
deriving DecidableEq, Repr

/-- `df.empty`: the frame has no rows. -/
def DataFrame.isEmpty (df : DataFrame) : Bool := df.rows.isEmpty

/-- `c in df.columns`. -/
def DataFrame.hasCol (df : DataFrame) (c : String) : Bool := df.cols.contains c

/-- The cell of row `r` in column `c` (`row[c]`, or `row.to_dict().get(c)`
when the column may be absent): `none` when `c` is not a column of the
frame. -/
def DataFrame.getCell (df : DataFrame) (r : List Value) (c : String) : Option Value :=
  match df.cols.indexOf? c with
  | some i => r[i]?
  | none => none

/-- The values of column `c` (`df[c]`); membership in it models
`v in df[c].unique()`. -/
def DataFrame.colValues (df : DataFrame) (c : String) : List Value :=
  df.rows.filterMap (fun r => df.getCell r c)

/-- `df[df[c] == v]`: keep exactly the rows whose cell in column `c`
equals `v`. -/
def DataFrame.filterEq (df : DataFrame) (c : String) (v : Value) : DataFrame :=
  { cols := df.cols, rows := df.rows.filter (fun r => df.getCell r c == some v) }

/-- Python `str.upper()` (the code only upper-cases ASCII column
names). -/
def pyUpper (s : String) : String := String.mk (s.data.map Char.toUpper)

/-- `df.columns.str.upper()`. -/
def DataFrame.upperCols (df : DataFrame) : DataFrame :=
  { cols := df.cols.map pyUpper, rows := df.rows }

/-- Python `sorted(list(s))` over a set of cell values, the set given by
any list enumerating it. -/
def sortValues (l : List Value) : List Value :=
  l.insertionSort (fun a b => Value.le a b = true)

/-- Python `sorted(list(s))` over a set of strings. -/
def sortStrings (l : List String) : List String :=
  l.insertionSort (fun a b => strLe a b = true)

/-!
## Embedding of `modules/comparabd.py`
-/

/-- `_normalize_schemas` (comparabd.py lines 154-174): drop every source
that is `None` or empty and upper-case the column names of the remaining
ones.  No other validation is performed here. -/
def normalize_schemas (schemas : List (String × Option DataFrame)) :
    List (String × DataFrame) :=
  schemas.filterMap (fun p =>
    match p.2 with
    | none => none
    | some df => if df.isEmpty then none else some (p.1, df.upperCols))

/-- The universe dictionary built by `_create_universe`. -/
structure SchemaUniverse where
  all_tables : List Value
  table_columns : List (Value × List Value)
  schema_names : List String
deriving Repr

/-- The tables one source contributes to the universe
(comparabd.py lines 197-199). -/
def sourceTables (df : DataFrame) : List Value :=
  if df.hasCol "TABLE_NAME" && !df.isEmpty then df.colValues "TABLE_NAME" else []

/-- The columns of `table` one source contributes to the universe
(comparabd.py lines 204-208). -/
def sourceTableCols (df : DataFrame) (table : Value) : List Value :=
  if df.hasCol "TABLE_NAME" && df.hasCol "COLUMN_NAME" then
    (df.filterEq "TABLE_NAME" table).colValues "COLUMN_NAME"
  else []

/-- `_create_universe` (comparabd.py lines 177-215). -/
def create_universe (schemas : List (String × DataFrame)) : SchemaUniverse :=
  let all_tables := sortValues (schemas.flatMap (fun p => sourceTables p.2)).dedup
  { all_tables := all_tables
    table_columns := all_tables.map (fun t =>
      (t, sortValues (schemas.flatMap (fun p => sourceTableCols p.2 t)).dedup))
    schema_names := schemas.map Prod.fst }

/-- `universe['table_columns'][table]` (always a hit for universe
tables). -/
def SchemaUniverse.colsFor (u : SchemaUniverse) (t : Value) : List Value :=
  (u.table_columns.lookup t).getD []

/-- One difference row as built by the detectors: the fixed identifying
fields plus the per-source status-or-value entries in
`universe['schema_names']` order. -/
structure DiffRecord where
  table : Value
  column : Value
  dtype : String
  entries : List (String × String)
deriving DecidableEq, Repr

/-- `d.get(k, default)` on a string-valued dict. -/
def lookupD (l : List (String × String)) (k : String) (d : String) : String :=
  (l.lookup k).getD d

/-- Existence status of a table in one source (comparabd.py line 238):
`'EXISTS'` iff
`not df.empty and 'TABLE_NAME' in df.columns and table in df['TABLE_NAME'].unique()`. -/
def tableStatus (df : DataFrame) (table : Value) : String :=
  if !df.isEmpty && df.hasCol "TABLE_NAME" && (df.colValues "TABLE_NAME").contains table
  then "EXISTS" else "MISSING"

/-- The body of the table loop of `_find_table_differences`
(comparabd.py lines 232-256): the record emitted for one universe table,
if any. -/
def tableDiffRow (u : SchemaUniverse) (schemas : List (String × DataFrame))
    (table : Value) : Option DiffRecord :=
  let status := schemas.map (fun p => (p.1, tableStatus p.2 table))
  if (status.filter (fun q => q.2 == "MISSING")).isEmpty then none
  else some
    { table := table, column := .str "", dtype := "Table Missing"
      entries := u.schema_names.map (fun n => (n, lookupD status n "N/A")) }

/-- `_find_table_differences` (comparabd.py lines 218-258). -/
def find_table_differences (u : SchemaUniverse)
    (schemas : List (String × DataFrame)) : List DiffRecord :=
  u.all_tables.filterMap (tableDiffRow u schemas)

/-- Existence status of a column of a table in one source
(comparabd.py lines 293-299). -/
def columnStatus (df : DataFrame) (table column : Value) : String :=
  let table_data := df.filterEq "TABLE_NAME" table
  if !table_data.isEmpty && df.hasCol "COLUMN_NAME"
      && (table_data.colValues "COLUMN_NAME").contains column
  then "EXISTS" else "MISSING"

/-- The sources whose schema contains `table`
(comparabd.py lines 277-280). -/
def schemasWithTable (schemas : List (String × DataFrame)) (table : Value) :
    List (String × DataFrame) :=
  schemas.filter (fun p => tableStatus p.2 table == "EXISTS")

/-- The body of the column loop of `_find_column_differences`
(comparabd.py lines 287-316): the record emitted for one universe
column, if any. -/
def columnDiffRow (u : SchemaUniverse) (schemas : List (String × DataFrame))
    (table column : Value) : Option DiffRecord :=
  let withTable := schemasWithTable schemas table
  let status := withTable.map (fun p => (p.1, columnStatus p.2 table column))
  let missing := (status.filter (fun q => q.2 == "MISSING")).length
  if 0 < missing ∧ missing < withTable.length then
    some { table := table, column := column, dtype := "Column Missing"
           entries := u.schema_names.map (fun n =>
             (n, match status.lookup n with
                 | some s => s
                 | none => "N/A")) }
  else none

/-- `_find_column_differences` (comparabd.py lines 261-318). -/
def find_column_differences (u : SchemaUniverse)
    (schemas : List (String × DataFrame)) : List DiffRecord :=
  u.all_tables.flatMap (fun table =>
    if (schemasWithTable schemas table).length ≤ 1 then []
    else (u.colsFor table).filterMap (columnDiffRow u schemas table))

/-- The fixed attribute set compared by `_find_attribute_differences`. -/
def attrSet : List String :=
  ["DATA_TYPE", "DATA_LENGTH", "DATA_PRECISION", "DATA_SCALE", "NULLABLE"]

/-- The sources holding the (table, column) pair, each with its frame and
the first matching row (`column_data.iloc[0]`, comparabd.py lines
345-352). -/
def attrInfos (schemas : List (String × DataFrame)) (table column : Value) :
    List (String × DataFrame × List Value) :=
  schemas.filterMap (fun p =>
    if p.2.isEmpty || !p.2.hasCol "TABLE_NAME" || !p.2.hasCol "COLUMN_NAME" then none
    else
      match ((p.2.filterEq "TABLE_NAME" table).filterEq "COLUMN_NAME" column).rows with
      | [] => none
      | r :: _ => some (p.1, p.2, r))

/-- The normalized attribute value of one source:
`column_info[schema_name].get(attr)` followed by the
`if pd.isna(value): value = None` normalization (comparabd.py lines
368-370).  `none` is the Python `None` sentinel. -/
def normAttr (df : DataFrame) (r : List Value) (attr : String) : Option Value :=
  match df.getCell r attr with
  | some Value.null => none
  | some v => some v
  | none => none

/-- `str(value) if value is not None else 'NULL'` (comparabd.py line
386). -/
def strOrNULL : Option Value → String
  | some v => v.pyStr
  | none => "NULL"

/-- The columns of the stale `df` loop variable at comparabd.py line 360:
after the source loop has run, `df` holds the frame of the source that
iterates last. -/
def lastCols (schemas : List (String × DataFrame)) : List String :=
  match schemas.getLast? with
  | some p => p.2.cols
  | none => []

/-- The per-source normalized values of one attribute (comparabd.py
lines 363-372). -/
def attrVals (infos : List (String × DataFrame × List Value)) (attr : String) :
    List (String × Option Value) :=
  infos.map (fun q => (q.1, normAttr q.2.1 q.2.2 attr))

/-- The body of the attribute loop of `_find_attribute_differences`
(comparabd.py lines 359-390): the record emitted for one attribute of a
(table, column) pair, if any.  The stale-`df` guard of line 360
(`if attr not in df.columns: continue`, where `df` is the last source's
frame, not the current one) is the `lastCols` test. -/
def attrDiffRow (u : SchemaUniverse) (schemas : List (String × DataFrame))
    (table column : Value) (attr : String) : Option DiffRecord :=
  if !(lastCols schemas).contains attr then none
  else
    let vals := attrVals (attrInfos schemas table column) attr
    if 1 < (vals.map Prod.snd).dedup.length then
      some { table := table, column := column, dtype := attr ++ " Different"
             entries := u.schema_names.map (fun n =>
               match vals.lookup n with
               | some v => (n, strOrNULL v)
               | none => (n, "N/A")) }
    else none

/-- `_find_attribute_differences` (comparabd.py lines 321-392). -/
def find_attribute_differences (u : SchemaUniverse)
    (schemas : List (String × DataFrame)) : List DiffRecord :=
  u.all_tables.flatMap (fun table =>
    (u.colsFor table).flatMap (fun column =>
      if (attrInfos schemas table column).length < 2 then []
      else attrSet.filterMap (attrDiffRow u schemas table column)))

/-- The value `compare_all_schemas` returns: either the bare
`pd.DataFrame()` of the two error exits (lines 423 and 431), or a
differences table with its column header.  The final
`sort_values([...])` only permutes rows, so the records are kept in
generation order. -/
inductive CompareResult where
  | errorEmpty
  | results (records : List DiffRecord) (cols : List String)
deriving DecidableEq, Repr

/-- The difference records a comparison result holds. -/
def recordsOf : CompareResult → List DiffRecord
  | .errorEmpty => []
  | .results rs _ => rs

/-- `compare_all_schemas` (comparabd.py lines 395-475). -/
def compare_all_schemas (schemas : List (String × Option DataFrame)) :
    CompareResult :=
  if schemas.length < 2 then .errorEmpty
  else
    let normalized := normalize_schemas schemas
    if normalized.isEmpty then .errorEmpty
    else
      let u := create_universe normalized
      let all_differences :=
        find_table_differences u normalized ++ find_column_differences u normalized
          ++ find_attribute_differences u normalized
      if all_differences.isEmpty then
        .results [] (["TABLE_NAME", "COLUMN_NAME", "DIFFERENCE_TYPE"] ++ schemas.map Prod.fst)
      else
        .results all_differences
          (["TABLE_NAME", "COLUMN_NAME", "DIFFERENCE_TYPE"] ++ u.schema_names)

/-!
## Embedding of `modules/compare_events.py`: the formula reference
extractor (`extract_subroutine_calls`, lines 26-79)

The four regular expressions are realized as deterministic left-to-right
scanners.  In each pattern the greedy pieces are followed by characters
disjoint from them, so regex backtracking can never produce a different
match and the scanners are exact.
-/

/-- The apostrophe character, the embedded language's comment marker. -/
def apos : Char := Char.ofNat 39

/-- Python `\s` on the ASCII range (space, tab, newline, carriage
return, vertical tab, form feed). -/
def pyIsSpace (c : Char) : Bool :=
  c == ' ' || c == '\t' || c == '\n' || c == '\r' ||
    c == Char.ofNat 11 || c == Char.ofNat 12

/-- `[A-Z_]` under `re.IGNORECASE`. -/
def isNameStart (c : Char) : Bool := c.isAlpha || c == '_'

/-- `[A-Z0-9_]` under `re.IGNORECASE`. -/
def isNameChar (c : Char) : Bool := c.isAlphanum || c == '_'

/-- A quote character as in the character class of the function-call
patterns (double quote or apostrophe). -/
def isQuote (c : Char) : Bool := c == '"' || c == apos

/-- Case-insensitive literal keyword match; the keyword is given in
lowercase.  Returns the remainder after the keyword. -/
def matchCI : List Char → List Char → Option (List Char)
  | [], s => some s
  | _, [] => none
  | k :: ks, c :: cs => if c.toLower == k then matchCI ks cs else none

/-- One attempt of pattern `(?<!')GOSUB\s+([A-Z_][A-Z0-9_]*)` at the
current position; `prev` is the character immediately before it (the
negative look-behind).  Returns the captured name and the remainder. -/
def tryGosub (prev : Option Char) (s : List Char) : Option (String × List Char) :=
  if prev == some apos then none
  else match matchCI ("gosub".data) s with
    | none => none
    | some rest =>
      if (rest.takeWhile pyIsSpace).isEmpty then none
      else match rest.dropWhile pyIsSpace with
        | [] => none
        | c :: rest2 =>
          if isNameStart c then
            some (String.mk (c :: rest2.takeWhile isNameChar), rest2.dropWhile isNameChar)
          else none

/-- One attempt of a function-call pattern
`(?<!')<kw>\s*\(\s*["']([^"']+)["']` at the current position, for the
keyword `kw` (given lowercase). -/
def tryCall (kw : List Char) (prev : Option Char) (s : List Char) :
    Option (String × List Char) :=
  if prev == some apos then none
  else match matchCI kw s with
    | none => none
    | some rest =>
      match rest.dropWhile pyIsSpace with
      | '(' :: rest2 =>
        match rest2.dropWhile pyIsSpace with
        | q :: rest4 =>
          if isQuote q then
            let nm := rest4.takeWhile (fun c => !isQuote c)
            if nm.isEmpty then none
            else match rest4.dropWhile (fun c => !isQuote c) with
              | q2 :: rest6 => if isQuote q2 then some (String.mk nm, rest6) else none
              | [] => none
          else none
        | [] => none
      | _ => none

/-- `re.findall` driver: scan left to right; on a match, emit the capture
and resume right after the matched text (non-overlapping matches),
keeping track of the character preceding the resume position for the
look-behind.  The fuel argument bounds the number of steps; every step
consumes at least one character, so `s.length` steps always suffice. -/
def scanAux (tryf : Option Char → List Char → Option (String × List Char)) :
    Nat → Option Char → List Char → List String
  | 0, _, _ => []
  | _ + 1, _, [] => []
  | fuel + 1, prev, c :: rest =>
    match tryf prev (c :: rest) with
    | some (nm, rest') =>
      let consumed := (c :: rest).take ((c :: rest).length - rest'.length)
      nm :: scanAux tryf fuel consumed.getLast? rest'
    | none => scanAux tryf fuel (some c) rest

/-- All captures of one pattern over the whole text. -/
def scanAll (tryf : Option Char → List Char → Option (String × List Char))
    (s : List Char) : List String :=
  scanAux tryf s.length none s

/-- The captures of the four patterns, in the order the code collects
them into its result set (compare_events.py lines 57-72). -/
def rawCaptures (s : String) : List String :=
  scanAll tryGosub s.data
    ++ scanAll (tryCall ("subroutine".data)) s.data
    ++ scanAll (tryCall ("backgroundsubroutine".data)) s.data
    ++ scanAll (tryCall ("postsubroutine".data)) s.data

/-- `extract_subroutine_calls` (compare_events.py lines 26-79): `none`
models a null/absent (`None`/`NaN`) formula, and the empty string is
falsy in Python, so both return `[]`; otherwise the distinct captured
names are returned sorted. -/
def extract_subroutine_calls (formula : Option String) : List String :=
  match formula with
  | none => []
  | some s => if s = "" then [] else sortStrings (rawCaptures s).dedup

/-!
## Embedding of `modules/compare_events.py`: the events comparator
(`create_events_universe` and `compare_table_events`)
-/

/-- The identity-key columns of each event table type
(compare_events.py lines 380-396; the function is only invoked with the
three table types `events`, `test_events`, `database_events`). -/
def keyColsOf (tt : String) : String × String :=
  if tt == "database_events" then ("table_name", "event_name") else ("template", "event")

/-- The designated comparison field of each event table type. -/
def compareFieldOf (tt : String) : String :=
  if tt == "database_events" then "sub_name" else "calls_list"

/-- `row[c]` when iterating the rows of a frame whose column `c` exists. -/
def DataFrame.cellD (df : DataFrame) (r : List Value) (c : String) : Value :=
  (df.getCell r c).getD .null

/-- The identity-key pairs one source contributes to the events universe
for one table type (compare_events.py lines 285-299). -/
def eventEntries (dataTables : List (String × DataFrame)) (tt : String) :
    List (Value × Value) :=
  match dataTables.lookup tt with
  | none => []
  | some df =>
    let k := keyColsOf tt
    if df.hasCol k.1 && df.hasCol k.2 then
      df.rows.map (fun r => (df.cellD r k.1, df.cellD r k.2))
    else []

/-- Lexicographic order on key pairs, modelling Python `sorted` on
tuples. -/
def pairLe (a b : Value × Value) : Bool :=
  if a.1 == b.1 then Value.le a.2 b.2 else Value.le a.1 b.1

/-- Python `sorted(list(s))` over a set of key pairs. -/
def sortEntryPairs (l : List (Value × Value)) : List (Value × Value) :=
  l.insertionSort (fun a b => pairLe a b = true)

/-- The universe built by `create_events_universe`
(compare_events.py lines 263-303). -/
structure EventsUniverse where
  schemas : List String
  all_events : List (Value × Value)
  all_test_events : List (Value × Value)
  all_database_events : List (Value × Value)
deriving Repr

/-- `universe[f'all_{table_type}']`. -/
def EventsUniverse.entriesFor (u : EventsUniverse) (tt : String) : List (Value × Value) :=
  if tt == "events" then u.all_events
  else if tt == "test_events" then u.all_test_events
  else u.all_database_events

/-- `create_events_universe` (compare_events.py lines 263-303). -/
def create_events_universe (data : List (String × List (String × DataFrame))) :
    EventsUniverse :=
  { schemas := data.map Prod.fst
    all_events := sortEntryPairs (data.flatMap (fun p => eventEntries p.2 "events")).dedup
    all_test_events :=
      sortEntryPairs (data.flatMap (fun p => eventEntries p.2 "test_events")).dedup
    all_database_events :=
      sortEntryPairs (data.flatMap (fun p => eventEntries p.2 "database_events")).dedup }

/-- `pd.DataFrame()`. -/
def emptyDF : DataFrame := { cols := [], rows := [] }

/-- `all_events.get(schema_name, {}).get(table_type, pd.DataFrame())`
(compare_events.py lines 377-378). -/
def lookup2 (data : List (String × List (String × DataFrame))) (name tt : String) :
    DataFrame :=
  (((data.lookup name).getD []).lookup tt).getD emptyDF

/-- The rows of one source matching an entry key
(compare_events.py lines 382-393). -/
def matchingRows (table_df : DataFrame) (tt : String) (entry : Value × Value) :
    DataFrame :=
  if table_df.isEmpty then emptyDF
  else (table_df.filterEq (keyColsOf tt).1 entry.1).filterEq (keyColsOf tt).2 entry.2

/-- Lines 398-410 of compare_events.py, as a function of the matching
rows: existence status and comparison value.  Only the first matching
row is consulted (`matching_rows.iloc[0]`), and a `NaN` comparison field
becomes the empty string (`str(value) if pd.notna(value) else ''`). -/
def statusValueOf (tt : String) (matching : DataFrame) : String × String :=
  if !matching.isEmpty then
    ("EXISTS",
      if matching.hasCol (compareFieldOf tt) then
        match matching.rows with
        | r :: _ =>
          match matching.getCell r (compareFieldOf tt) with
          | some Value.null => ""
          | some v => v.pyStr
          | none => ""
        | [] => ""
      else "")
  else ("MISSING", "N/A")

/-- Lines 398-410 of compare_events.py: the existence status and the
comparison value of one entry in one source. -/
def entryStatusValue (table_df : DataFrame) (tt : String) (entry : Value × Value) :
    String × String :=
  statusValueOf tt (matchingRows table_df tt entry)

/-- Python `s.replace('_', ' ').title()`, character by character: a
letter is upper-cased when the preceding character is not a letter and
lower-cased otherwise. -/
def titleAux : Bool → List Char → List Char
  | _, [] => []
  | prevAlpha, c :: cs =>
    if c.isAlpha then
      (if prevAlpha then c.toLower else c.toUpper) :: titleAux true cs
    else c :: titleAux false cs

/-- `compare_field.replace("_", " ").title()` (compare_events.py line
451). -/
def pyTitleField (s : String) : String :=
  String.mk (titleAux false (s.data.map (fun c => if c == '_' then ' ' else c)))

/-- One difference row emitted by the events comparator. -/
structure EventDiffRecord where
  table_type : String
  identifier : String
  dtype : String
  entries : List (String × String)
deriving DecidableEq, Repr

/-- `compare_table_events` (compare_events.py lines 349-465): the
existence pass and the value pass, run per universe entry. -/
def compare_table_events (data : List (String × List (String × DataFrame)))
    (tt : String) (u : EventsUniverse) : List EventDiffRecord :=
  (u.entriesFor tt).flatMap (fun entry =>
    let per := u.schemas.map (fun name =>
      (name, entryStatusValue (lookup2 data name tt) tt entry))
    let schema_status : List (String × String) := per.map (fun q => (q.1, q.2.1))
    let schema_values : List (String × String) := per.map (fun q => (q.1, q.2.2))
    let identifier := entry.1.pyStr ++ "." ++ entry.2.pyStr
    let missingRecs :=
      if 1 < (schema_status.map Prod.snd).dedup.length then
        [{ table_type := tt, identifier := identifier, dtype := "Event Missing"
           entries := u.schemas.map (fun n => (n, lookupD schema_status n "N/A")) }]
      else []
    let existing := (schema_status.filter (fun q => q.2 == "EXISTS")).map Prod.fst
    let mismatchRecs :=
      if 1 < existing.length ∧
          1 < ((existing.map (fun n => lookupD schema_values n "")).dedup).length then
        [{ table_type := tt, identifier := identifier
           dtype := pyTitleField (compareFieldOf tt) ++ " Mismatch"
           entries := u.schemas.map (fun n =>
             (n, if existing.contains n then lookupD schema_values n ""
                 else lookupD schema_status n "N/A")) }]
      else []
    missingRecs ++ mismatchRecs)

/-!
## Concrete data used by the claim theorems, and the spec-side emission
predicate of claim C1
-/

/-- The formula of the spec's extraction example: a live `GOSUB`, a
commented `GOSUB` (preceded by an apostrophe) and a function-style
call. -/
def exampleFormula : String :=
  "GOSUB FOO\n" ++ String.mk [apos] ++ "GOSUB BAR\nSubroutine(\"BAZ\")"

/-- A formula with two calls whose target names differ only in letter
case, the second with a lower-case keyword. -/
def caseFormula : String := "GOSUB FOO\ngosub Foo"

/-- Events table of Source1 in the spec's event scenario. -/
def evA : DataFrame :=
  { cols := ["template", "event", "calls_list"]
    rows := [[.str "TPL", .str "EVT", .str "FOO"]] }

/-- Events table of Source2 in the spec's event scenario. -/
def evB : DataFrame :=
  { cols := ["template", "event", "calls_list"]
    rows := [[.str "TPL", .str "EVT", .str "FOO, BAR"]] }

/-- Events table whose single entry has yet another calls list. -/
def evC : DataFrame :=
  { cols := ["template", "event", "calls_list"]
    rows := [[.str "TPL", .str "EVT", .str "BAR"]] }

/-- The two-source event scenario of the spec. -/
def evDataPair : List (String × List (String × DataFrame)) :=
  [("Source1", [("events", evA)]), ("Source2", [("events", evB)])]

/-- A three-source event scenario in which the same entry is missing
from one source and mismatched between the other two. -/
def evDataTriple : List (String × List (String × DataFrame)) :=
  [("S1", [("events", evA)]), ("S2", [("events", evC)]), ("S3", [])]

/-- An events table in which the same key matches two rows with
different comparison values. -/
def evDup : DataFrame :=
  { cols := ["template", "event", "calls_list"]
    rows := [[.str "TPL", .str "EVT", .str "X"], [.str "TPL", .str "EVT", .str "Y"]] }

/-- An events table whose single matching row has a `NaN` comparison
field. -/
def evNan : DataFrame :=
  { cols := ["template", "event", "calls_list"]
    rows := [[.str "TPL", .str "EVT", .null]] }

/-- Schema source holding table `T`, column `C`, with a `DATA_TYPE`
column. -/
def dfA : DataFrame :=
  { cols := ["TABLE_NAME", "COLUMN_NAME", "DATA_TYPE"]
    rows := [[.str "T", .str "C", .str "NUMBER"]] }

/-- Schema source holding the same table `T`, column `C`, but without
any attribute columns. -/
def dfB : DataFrame :=
  { cols := ["TABLE_NAME", "COLUMN_NAME"]
    rows := [[.str "T", .str "C"]] }

/-- An empty schema source (no rows). -/
def dfEmptyB : DataFrame := { cols := ["TABLE_NAME"], rows := [] }

/-- A non-empty schema source lacking both identifying columns. -/
def dfNoId : DataFrame := { cols := ["FOO"], rows := [[.null]] }

/-- Schema source holding table `T1` with column `C`. -/
def wsX : DataFrame :=
  { cols := ["TABLE_NAME", "COLUMN_NAME"], rows := [[.str "T1", .str "C"]] }

/-- Schema source holding table `T2` with column `C`. -/
def wsY : DataFrame :=
  { cols := ["TABLE_NAME", "COLUMN_NAME"], rows := [[.str "T2", .str "C"]] }

/-- Schema source holding table `T1` with columns `C` and `D`. -/
def wsZ : DataFrame :=
  { cols := ["TABLE_NAME", "COLUMN_NAME"]
    rows := [[.str "T1", .str "C"], [.str "T1", .str "D"]] }

/-- Homogeneous schema source for the order-independence witness:
table `T1`, column `A`, length 10. -/
def s1w : DataFrame :=
  { cols := ["TABLE_NAME", "COLUMN_NAME", "DATA_LENGTH"]
    rows := [[.str "T1", .str "A", .num 10]] }

/-- Homogeneous schema source for the order-independence witness:
table `T1`, column `A`, length 20. -/
def s2w : DataFrame :=
  { cols := ["TABLE_NAME", "COLUMN_NAME", "DATA_LENGTH"]
    rows := [[.str "T1", .str "A", .num 20]] }

/-- Modelled from the spec (claim C1's wording): the emission condition
claim C1 asserts for `_find_attribute_differences` — the (table, column)
pair is present in at least 2 sources, the attribute exists as a column
in at least one source's schema, and the per-source values, with
`NaN`/null normalized to one `None` sentinel, have more than one
distinct element.  Compare with the code's own guard, which consults
only the last source's columns. -/
def specC1Emits (schemas : List (String × DataFrame)) (table column : Value)
    (attr : String) : Bool :=
  let infos := attrInfos schemas table column
  decide (2 ≤ infos.length) && schemas.any (fun p => p.2.hasCol attr) &&
    decide (1 < ((attrVals infos attr).map Prod.snd).dedup.length)

/-- Content identity of two difference rows: the identifying fields
agree and the per-source entries are the same finite map (Python dicts
compare equal regardless of insertion order). -/
def RecEquiv (r1 r2 : DiffRecord) : Prop :=
  r1.table = r2.table ∧ r1.column = r2.column ∧ r1.dtype = r2.dtype ∧
    (∀ n : String, r1.entries.lookup n = r2.entries.lookup n) ∧
    (r1.entries.map Prod.fst).Perm (r2.entries.map Prod.fst)

/-!
## Order-theoretic facts about the comparison functions backing the
`sorted(...)` models
-/

theorem strLeAux_total : ∀ as bs : List Char, strLeAux as bs = true ∨ strLeAux bs as = true
  | [], _ => Or.inl rfl
  | _ :: _, [] => Or.inr rfl
  | a :: as, b :: bs => by
    simp only [strLeAux]
    by_cases hab : a = b
    · subst hab
      simp only [beq_self_eq_true, if_true]
      exact strLeAux_total as bs
    · rw [if_neg (by simp [hab]), if_neg (by simp [Ne.symm hab])]
      simp only [decide_eq_true_eq]
      exact lt_or_gt_of_ne hab

theorem strLeAux_trans : ∀ as bs cs : List Char,
    strLeAux as bs = true → strLeAux bs cs = true → strLeAux as cs = true
  | [], _, _, _, _ => rfl
  | _ :: _, [], _, h1, _ => by simp [strLeAux] at h1
  | _ :: _, _ :: _, [], _, h2 => by simp [strLeAux] at h2
  | a :: as, b :: bs, c :: cs, h1, h2 => by
    simp only [strLeAux] at h1 h2 ⊢
    by_cases hab : a = b
    · subst hab
      rw [if_pos (by simp)] at h1
      by_cases hac : a = c
      · subst hac
        rw [if_pos (by simp)] at h2 ⊢
        exact strLeAux_trans as bs cs h1 h2
      · rw [if_neg (by simp [hac])] at h2 ⊢
        exact h2
    · rw [if_neg (by simp [hab])] at h1
      have hab' : a < b := of_decide_eq_true h1
      by_cases hbc : b = c
      · subst hbc
        rw [if_neg (by simp [ne_of_lt hab'])]
        exact h1
      · rw [if_neg (by simp [hbc])] at h2
        have hbc' : b < c := of_decide_eq_true h2
        have hac' : a < c := lt_trans hab' hbc'
        rw [if_neg (by simp [ne_of_lt hac'])]
        exact decide_eq_true hac'

theorem strLeAux_antisymm : ∀ as bs : List Char,
    strLeAux as bs = true → strLeAux bs as = true → as = bs
  | [], [], _, _ => rfl
  | [], _ :: _, _, h2 => by simp [strLeAux] at h2
  | _ :: _, [], h1, _ => by simp [strLeAux] at h1
  | a :: as, b :: bs, h1, h2 => by
    simp only [strLeAux] at h1 h2
    by_cases hab : a = b
    · subst hab
      rw [if_pos (by simp)] at h1 h2
      rw [strLeAux_antisymm as bs h1 h2]
    · rw [if_neg (by simp [hab])] at h1
      rw [if_neg (by simp [Ne.symm hab])] at h2
      exact absurd (lt_trans (of_decide_eq_true h1) (of_decide_eq_true h2))
        (lt_irrefl a)

theorem strLe_antisymm (a b : String) (h1 : strLe a b = true) (h2 : strLe b a = true) :
    a = b := by
  cases a with
  | mk as =>
    cases b with
    | mk bs => exact congrArg String.mk (strLeAux_antisymm as bs h1 h2)

theorem Value.le_total : ∀ a b : Value, Value.le a b = true ∨ Value.le b a = true
  | .null, _ => Or.inl rfl
  | .num _, .null => Or.inr rfl
  | .num m, .num n => by simpa [Value.le] using Int.le_total m n
  | .num _, .str _ => Or.inl rfl
  | .str _, .null => Or.inr rfl
  | .str _, .num _ => Or.inr rfl
  | .str s, .str t => strLeAux_total s.data t.data

theorem strLe_trans (a b c : String) (h1 : strLe a b = true) (h2 : strLe b c = true) :
    strLe a c = true :=
  strLeAux_trans a.data b.data c.data h1 h2

theorem Value.le_trans : ∀ a b c : Value,
    Value.le a b = true → Value.le b c = true → Value.le a c = true := by
  intro a b c h1 h2
  cases a <;> cases b <;> cases c <;>
    simp only [Value.le, decide_eq_true_eq] at h1 h2 ⊢ <;>
    first
      | trivial
      | exact absurd h1 Bool.false_ne_true
      | exact absurd h2 Bool.false_ne_true
      | omega
      | exact strLe_trans _ _ _ h1 h2

theorem Value.le_antisymm : ∀ a b : Value,
    Value.le a b = true → Value.le b a = true → a = b := by
  intro a b h1 h2
  cases a <;> cases b <;>
    simp only [Value.le, decide_eq_true_eq] at h1 h2 <;>
    first
      | trivial
      | exact absurd h1 Bool.false_ne_true
      | exact absurd h2 Bool.false_ne_true
      | exact congrArg Value.num (Int.le_antisymm h1 h2)
      | exact congrArg Value.str (strLe_antisymm _ _ h1 h2)

/-!
## Generic facts about the list combinators of the embedding
-/

theorem mem_sortStrings {a : String} {l : List String} : a ∈ sortStrings l ↔ a ∈ l :=
  (List.perm_insertionSort _ l).mem_iff

theorem mem_sortValues {a : Value} {l : List Value} : a ∈ sortValues l ↔ a ∈ l :=
  (List.perm_insertionSort _ l).mem_iff

theorem sortValues_nodup {l : List Value} (h : l.Nodup) : (sortValues l).Nodup :=
  h.perm (List.perm_insertionSort _ l).symm

theorem all_tables_nodup (schemas : List (String × DataFrame)) :
    (create_universe schemas).all_tables.Nodup :=
  sortValues_nodup (List.nodup_dedup _)

theorem mem_all_tables (schemas : List (String × DataFrame)) (v : Value) :
    v ∈ (create_universe schemas).all_tables ↔
      ∃ p ∈ schemas, v ∈ sourceTables p.2 :=
  mem_sortValues.trans (List.mem_dedup.trans (List.mem_flatMap))

theorem lookup_map_pair {α β : Type} [DecidableEq α] (l : List α) (f : α → β) (x : α) :
    (l.map (fun a => (a, f a))).lookup x = if x ∈ l then some (f x) else none := by
  induction l with
  | nil => rfl
  | cons a l ih =>
    cases hbeq : x == a with
    | true =>
      have hxa : x = a := eq_of_beq hbeq
      subst hxa
      simp [List.lookup, List.mem_cons]
    | false =>
      have hxa : x ≠ a := ne_of_beq_false hbeq
      simp only [List.map_cons, List.lookup, hbeq, ih]
      by_cases hxl : x ∈ l
      · simp [hxl, List.mem_cons]
      · simp [hxl, List.mem_cons, hxa]

theorem colsFor_eq (schemas : List (String × DataFrame)) (t : Value)
    (ht : t ∈ (create_universe schemas).all_tables) :
    (create_universe schemas).colsFor t =
      sortValues (schemas.flatMap (fun p => sourceTableCols p.2 t)).dedup := by
  show (((create_universe schemas).all_tables.map _).lookup t).getD [] = _
  rw [lookup_map_pair, if_pos ht, Option.getD_some]

theorem colsFor_eq_nil (schemas : List (String × DataFrame)) (t : Value)
    (ht : t ∉ (create_universe schemas).all_tables) :
    (create_universe schemas).colsFor t = [] := by
  show (((create_universe schemas).all_tables.map _).lookup t).getD [] = _
  rw [lookup_map_pair, if_neg ht, Option.getD_none]

theorem assoc_reconstruct (l : List (String × String)) (d : String)
    (hnd : (l.map Prod.fst).Nodup) :
    (l.map Prod.fst).map (fun n => (n, lookupD l n d)) = l := by
  induction l with
  | nil => rfl
  | cons p l ih =>
    obtain ⟨k, v⟩ := p
    simp only [List.map_cons, List.nodup_cons, List.mem_map] at hnd
    simp only [List.map_cons]
    congr 1
    · simp [lookupD, List.lookup]
    · have hstep : ∀ n ∈ l.map Prod.fst,
          (fun n => (n, lookupD ((k, v) :: l) n d)) n = (fun n => (n, lookupD l n d)) n := by
        intro n hn
        have hnk : ¬ n = k := by
          intro h
          obtain ⟨q, hq, hq2⟩ := List.mem_map.mp hn
          exact hnd.1 ⟨q, hq, by rw [hq2, h]⟩
        simp only [lookupD, List.lookup, beq_eq_false_iff_ne.mpr hnk]
      rw [List.map_congr_left hstep, ih hnd.2]

theorem filterMap_eq_of_unique {α β : Type} {l : List α} {G : α → Option β}
    {t : α} (hn : l.Nodup) (ht : t ∈ l) (h : ∀ a ∈ l, a ≠ t → G a = none) :
    l.filterMap G = (G t).toList := by
  induction l with
  | nil => cases ht
  | cons a l ih =>
    rw [List.nodup_cons] at hn
    rcases List.mem_cons.mp ht with rfl | htl
    · have hGl : l.filterMap G = [] := by
        rw [List.filterMap_eq_nil_iff]
        intro b hb
        exact h b (List.mem_cons_of_mem _ hb) (fun hbt => hn.1 (hbt ▸ hb))
      cases hG : G t <;> simp [List.filterMap_cons, hG, hGl]
    · have hat : a ≠ t := fun h' => hn.1 (h' ▸ htl)
      have hGa : G a = none := h a (List.mem_cons_self a l) hat
      rw [List.filterMap_cons, hGa]
      exact ih hn.2 htl (fun b hb hbt => h b (List.mem_cons_of_mem _ hb) hbt)

theorem flatMap_eq_of_unique {α β : Type} {l : List α} {G : α → List β}
    {t : α} (hn : l.Nodup) (ht : t ∈ l) (h : ∀ a ∈ l, a ≠ t → G a = []) :
    l.flatMap G = G t := by
  induction l with
  | nil => cases ht
  | cons a l ih =>
    rw [List.nodup_cons] at hn
    rcases List.mem_cons.mp ht with rfl | htl
    · have hGl : l.flatMap G = [] := by
        rw [List.flatMap_eq_nil_iff]
        intro b hb
        exact h b (List.mem_cons_of_mem _ hb) (fun hbt => hn.1 (hbt ▸ hb))
      simp [List.flatMap_cons, hGl]
    · have hat : a ≠ t := fun h' => hn.1 (h' ▸ htl)
      have hGa : G a = [] := h a (List.mem_cons_self a l) hat
      simp only [List.flatMap_cons, hGa, List.nil_append]
      exact ih hn.2 htl (fun b hb hbt => h b (List.mem_cons_of_mem _ hb) hbt)

theorem one_lt_length_of_two_mem {α : Type} {l : List α} {a b : α}
    (ha : a ∈ l) (hb : b ∈ l) (hab : a ≠ b) : 1 < l.length := by
  match l with
  | [] => cases ha
  | [x] =>
    rw [List.mem_singleton] at ha hb
    exact absurd (ha.trans hb.symm) hab
  | x :: y :: l => simp only [List.length_cons]; omega

theorem length_le_one_of_const {α : Type} {l : List α} {a : α}
    (hn : l.Nodup) (h : ∀ x ∈ l, x = a) : l.length ≤ 1 := by
  match l with
  | [] => simp
  | [x] => simp
  | x :: y :: l =>
    exfalso
    rw [List.nodup_cons] at hn
    have hx := h x (List.mem_cons_self _ _)
    have hy := h y (List.mem_cons_of_mem _ (List.mem_cons_self _ _))
    exact hn.1 ((hx.trans hy.symm) ▸ List.mem_cons_self y l)

theorem two_status_iff (ls : List String)
    (hsub : ∀ s ∈ ls, s = "EXISTS" ∨ s = "MISSING") :
    ("EXISTS" ∈ ls ∧ "MISSING" ∈ ls) ↔ 1 < ls.dedup.length := by
  constructor
  · rintro ⟨hE, hM⟩
    exact one_lt_length_of_two_mem (List.mem_dedup.mpr hE) (List.mem_dedup.mpr hM)
      (by decide)
  · intro h
    by_cases hE : "EXISTS" ∈ ls
    · refine ⟨hE, ?_⟩
      by_contra hM
      have hconst : ∀ x ∈ ls.dedup, x = "EXISTS" := fun x hx =>
        (hsub x (List.mem_dedup.mp hx)).resolve_right
          (fun hxm => hM (hxm ▸ List.mem_dedup.mp hx))
      have := length_le_one_of_const (List.nodup_dedup ls) hconst
      omega
    · exfalso
      have hconst : ∀ x ∈ ls.dedup, x = "MISSING" := fun x hx =>
        (hsub x (List.mem_dedup.mp hx)).resolve_left
          (fun hxe => hE (hxe ▸ List.mem_dedup.mp hx))
      have := length_le_one_of_const (List.nodup_dedup ls) hconst
      omega

/-!
## Claim theorems: formula extractor and events comparator
-/

/-- Claim C3: `extract_subroutine_calls` returns the set of distinct
referenced subroutine names as a sorted list, returns the empty list for
null/absent input, and excludes call tokens immediately preceded by an
apostrophe; on the spec's example formula it returns exactly
`["BAZ", "FOO"]`, with the commented `GOSUB BAR` excluded. -/
theorem C3_extractor_output :
    extract_subroutine_calls none = [] ∧
    extract_subroutine_calls (some "") = [] ∧
    extract_subroutine_calls (some exampleFormula) = ["BAZ", "FOO"] ∧
    ∀ f : Option String,
      List.Sorted (fun a b => strLe a b = true) (extract_subroutine_calls f) ∧
        (extract_subroutine_calls f).Nodup := by
  refine ⟨rfl, by decide, by decide, ?_⟩
  intro f
  match f with
  | none => exact ⟨List.sorted_nil, List.nodup_nil⟩
  | some s =>
    by_cases hs : s = ""
    · subst hs
      exact ⟨List.sorted_nil, List.nodup_nil⟩
    · have hred : extract_subroutine_calls (some s) = sortStrings (rawCaptures s).dedup := by
        simp [extract_subroutine_calls, hs]
      rw [hred]
      constructor
      · haveI : IsTotal String (fun a b => strLe a b = true) :=
          ⟨fun a b => strLeAux_total a.data b.data⟩
        haveI : IsTrans String (fun a b => strLe a b = true) :=
          ⟨fun a b c => strLe_trans a b c⟩
        exact List.sorted_insertionSort _ _
      · exact (List.nodup_dedup _).perm (List.perm_insertionSort _ _).symm

/-- Claim C9: the call keywords are matched case-insensitively but the
captured subroutine names are not case-normalized — every captured name
enters the output verbatim, so two calls whose target names differ only
in letter case yield two distinct entries, as on the concrete formula
`GOSUB FOO` / `gosub Foo`. -/
theorem C9_case_sensitive_names :
    (∀ s n : String, n ∈ extract_subroutine_calls (some s) ↔ n ∈ rawCaptures s) ∧
    extract_subroutine_calls (some caseFormula) = ["FOO", "Foo"] ∧
    "FOO" ≠ "Foo" := by
  refine ⟨?_, by decide, by decide⟩
  intro s n
  by_cases hs : s = ""
  · subst hs
    have hraw : rawCaptures "" = [] := by decide
    simp [extract_subroutine_calls, hraw]
  · have hred : extract_subroutine_calls (some s) = sortStrings (rawCaptures s).dedup := by
      simp [extract_subroutine_calls, hs]
    rw [hred, sortStrings]
    exact (List.perm_insertionSort _ _).mem_iff.trans List.mem_dedup

/-- Claim C6: in `compare_table_events` the existence pass and the
value-mismatch pass are independent and can both emit a record for the
same entry; on the spec's two-source scenario the output is exactly one
calls-list mismatch record (the code's literal label is
`"Calls List Mismatch"`, the spec's "Calls_List Mismatch") carrying the
literal values of both sources, and no entry-missing record. -/
theorem C6_event_value_mismatch :
    compare_table_events evDataPair "events" (create_events_universe evDataPair) =
      [{ table_type := "events", identifier := "TPL.EVT", dtype := "Calls List Mismatch"
         entries := [("Source1", "FOO"), ("Source2", "FOO, BAR")] }] ∧
    (compare_table_events evDataTriple "events" (create_events_universe evDataTriple)).map
        (fun r => (r.identifier, r.dtype)) =
      [("TPL.EVT", "Event Missing"), ("TPL.EVT", "Calls List Mismatch")] := by
  constructor
  · decide
  · decide

theorem matchingRows_append (cols : List String) (rows extra : List (List Value))
    (tt : String) (entry : Value × Value) (hrows : rows ≠ []) :
    matchingRows ⟨cols, rows ++ extra⟩ tt entry =
      ⟨cols, (matchingRows ⟨cols, rows⟩ tt entry).rows ++
        List.filter
          (fun r => DataFrame.getCell ⟨cols, extra⟩ r (keyColsOf tt).2 == some entry.2)
          (List.filter
            (fun r => DataFrame.getCell ⟨cols, extra⟩ r (keyColsOf tt).1 == some entry.1)
            extra)⟩ := by
  have h1 : DataFrame.isEmpty ⟨cols, rows ++ extra⟩ = false := by
    cases rows with
    | nil => exact absurd rfl hrows
    | cons a l => rfl
  have h2 : DataFrame.isEmpty ⟨cols, rows⟩ = false := by
    cases rows with
    | nil => exact absurd rfl hrows
    | cons a l => rfl
  simp only [matchingRows, h1, h2, Bool.false_eq_true, if_false, DataFrame.filterEq,
    DataFrame.getCell, List.filter_append]

/-- Claim C10: when an entry key matches several rows of one source's
table, only the first matching row's comparison value is used — appending
further rows behind a non-empty match leaves status and value unchanged —
and a `NaN` comparison field yields the empty string, not a `NULL`
sentinel; concretely on `evDup` and `evNan`. -/
theorem C10_first_row_and_nan :
    (∀ (table_df : DataFrame) (extra : List (List Value)) (tt : String)
        (entry : Value × Value),
        (matchingRows table_df tt entry).isEmpty = false →
        entryStatusValue ⟨table_df.cols, table_df.rows ++ extra⟩ tt entry
          = entryStatusValue table_df tt entry) ∧
    (∀ (table_df : DataFrame) (tt : String) (entry : Value × Value)
        (r : List Value) (rest : List (List Value)),
        (matchingRows table_df tt entry).rows = r :: rest →
        table_df.getCell r (compareFieldOf tt) = some Value.null →
        entryStatusValue table_df tt entry = ("EXISTS", "")) ∧
    entryStatusValue evDup "events" (Value.str "TPL", Value.str "EVT") = ("EXISTS", "X") ∧
    entryStatusValue evNan "events" (Value.str "TPL", Value.str "EVT") = ("EXISTS", "") := by
  have hcols : ∀ (df : DataFrame) (tt : String) (entry : Value × Value),
      df.isEmpty = false → (matchingRows df tt entry).cols = df.cols := by
    intro df tt entry hemp
    simp [matchingRows, hemp, DataFrame.filterEq]
  refine ⟨?_, ?_, by decide, by decide⟩
  · intro df extra tt entry h
    obtain ⟨cols, rows⟩ := df
    have hrows : rows ≠ [] := by
      intro hreq
      subst hreq
      simp [matchingRows, DataFrame.isEmpty, emptyDF] at h
    rw [entryStatusValue, entryStatusValue,
      matchingRows_append cols rows extra tt entry hrows]
    cases hmr : (matchingRows ⟨cols, rows⟩ tt entry).rows with
    | nil =>
      exfalso
      have hx : (matchingRows ⟨cols, rows⟩ tt entry).isEmpty = true := by
        simp [DataFrame.isEmpty, hmr]
      rw [hx] at h
      cases h
    | cons m ms =>
      have hemp2 : DataFrame.isEmpty ⟨cols, rows⟩ = false := by
        cases rows with
        | nil => exact absurd rfl hrows
        | cons a l => rfl
      have hc : (matchingRows ⟨cols, rows⟩ tt entry).cols = cols :=
        hcols _ _ _ hemp2
      have hstruct : matchingRows ⟨cols, rows⟩ tt entry = ⟨cols, m :: ms⟩ := by
        cases hM : matchingRows ⟨cols, rows⟩ tt entry with
        | mk a b =>
          rw [hM] at hc hmr
          simp only at hc hmr
          rw [hc, hmr]
      rw [hstruct]
      by_cases hf : cols.contains (compareFieldOf tt) <;>
        simp [statusValueOf, DataFrame.isEmpty, DataFrame.hasCol, DataFrame.getCell, hf]
  · intro df tt entry r rest hr hcell
    have hemp : df.isEmpty = false := by
      cases hx : df.isEmpty with
      | false => rfl
      | true =>
        exfalso
        unfold matchingRows at hr
        rw [if_pos hx] at hr
        cases hr
    have hc := hcols df tt entry hemp
    have hne : (matchingRows df tt entry).isEmpty = false := by
      simp [DataFrame.isEmpty, hr]
    simp only [entryStatusValue, statusValueOf, hne, Bool.not_false, if_true, hr]
    simp only [DataFrame.hasCol, DataFrame.getCell, hc]
    simp only [DataFrame.getCell] at hcell
    by_cases hf : df.cols.contains (compareFieldOf tt) <;> simp [hf, hcell]

/-!
## Claim theorems: normalization, error result and the universe
-/

/-- Claim C2 counterexample: with two input sources of which one is
empty, only one valid source remains — the claim demands the explicit
error result — yet `compare_all_schemas` returns the no-differences
results table; and a source lacking both identifying columns is not
dropped by the normalization stage. -/
theorem C2_claim_counterexample :
    compare_all_schemas [("A", some dfA), ("B", some dfEmptyB)] =
      CompareResult.results [] ["TABLE_NAME", "COLUMN_NAME", "DIFFERENCE_TYPE", "A", "B"] ∧
    compare_all_schemas [("A", some dfA), ("B", some dfEmptyB)] ≠
      CompareResult.errorEmpty ∧
    normalize_schemas [("X", some dfNoId)] = [("X", dfNoId)] := by
  refine ⟨by decide, by decide, by decide⟩

/-- Claim C2 as amended: the normalization stage drops exactly the
sources that are `None` or empty (keeping sources that lack the
identifying columns), and `compare_all_schemas` returns the bare error
result exactly when the input mapping has fewer than 2 sources or no
valid source remains after dropping; otherwise it returns a results
table. -/
theorem C2_error_result_amended (schemas : List (String × Option DataFrame)) :
    (compare_all_schemas schemas = CompareResult.errorEmpty ↔
      schemas.length < 2 ∨ normalize_schemas schemas = []) ∧
    ∀ (n : String) (df : DataFrame),
      ((n, df) ∈ normalize_schemas schemas ↔
        ∃ d : DataFrame, (n, some d) ∈ schemas ∧ d.isEmpty = false ∧ df = d.upperCols) := by
  constructor
  · simp only [compare_all_schemas]
    by_cases h1 : schemas.length < 2
    · simp [h1]
    · rw [if_neg h1]
      by_cases h2 : (normalize_schemas schemas).isEmpty
      · have h2' : normalize_schemas schemas = [] := List.isEmpty_iff.mp h2
        simp [h2, h2', h1]
      · have h2' : normalize_schemas schemas ≠ [] := by
          intro hx
          rw [hx] at h2
          exact h2 rfl
        rw [if_neg (by simpa using h2)]
        constructor
        · intro hcontra
          split at hcontra <;> exact CompareResult.noConfusion hcontra
        · intro hor
          rcases hor with h | h
          · exact absurd h h1
          · exact absurd h h2'
  · intro n df
    constructor
    · intro h
      obtain ⟨⟨n', d?⟩, hp, heq⟩ := List.mem_filterMap.mp h
      cases d? with
      | none => cases heq
      | some d =>
        dsimp only at heq
        by_cases hemp : d.isEmpty
        · rw [if_pos hemp] at heq
          cases heq
        · rw [if_neg hemp] at heq
          simp only [Option.some.injEq, Prod.mk.injEq] at heq
          refine ⟨d, ?_, ?_, heq.2.symm⟩
          · rw [← heq.1]
            exact hp
          · simpa using hemp
    · rintro ⟨d, hd, hemp, rfl⟩
      refine List.mem_filterMap.mpr ⟨(n, some d), hd, ?_⟩
      simp [hemp]

/-- Claim C7: the universe satisfies the union property — its object set
is the union of the sources' object sets, and each table's sub-object
set is the union, over exactly the sources containing that table, of the
table's column names there (a source contributing a column necessarily
contains the table). -/
theorem C7_universe_union (schemas : List (String × DataFrame)) (v t c : Value) :
    (v ∈ (create_universe schemas).all_tables ↔ ∃ p ∈ schemas, v ∈ sourceTables p.2) ∧
    (c ∈ (create_universe schemas).colsFor t ↔
      ∃ p ∈ schemas, c ∈ sourceTableCols p.2 t) ∧
    ∀ (df : DataFrame) (x tb : Value), x ∈ sourceTableCols df tb → tb ∈ sourceTables df := by
  have hcontrib : ∀ (df : DataFrame) (x tb : Value),
      x ∈ sourceTableCols df tb → tb ∈ sourceTables df := by
    intro df x tb hx
    unfold sourceTableCols at hx
    by_cases hg : df.hasCol "TABLE_NAME" && df.hasCol "COLUMN_NAME"
    · rw [if_pos hg] at hx
      obtain ⟨r, hr, hcell⟩ := List.mem_filterMap.mp hx
      have hr' : r ∈ df.rows ∧
          (df.getCell r "TABLE_NAME" == some tb) = true := List.mem_filter.mp hr
      have htn : df.getCell r "TABLE_NAME" = some tb := eq_of_beq hr'.2
      unfold sourceTables
      have hne : df.isEmpty = false := by
        unfold DataFrame.isEmpty
        cases hrows : df.rows with
        | nil =>
          rw [hrows] at hr'
          cases hr'.1
        | cons a l => rfl
      rw [if_pos (by simp [Bool.and_eq_true] at hg ⊢; simp [hg.1, hne])]
      exact List.mem_filterMap.mpr ⟨r, hr'.1, htn⟩
    · rw [if_neg hg] at hx
      cases hx
  refine ⟨mem_all_tables schemas v, ?_, hcontrib⟩
  by_cases htm : t ∈ (create_universe schemas).all_tables
  · rw [colsFor_eq schemas t htm]
    exact mem_sortValues.trans (List.mem_dedup.trans List.mem_flatMap)
  · rw [colsFor_eq_nil schemas t htm]
    constructor
    · intro h
      cases h
    · rintro ⟨p, hp, hc'⟩
      exact absurd ((mem_all_tables schemas t).mpr ⟨p, hp, hcontrib p.2 c t hc'⟩) htm

/-- Witness for claim C7 at a concrete one-source input. -/
theorem C7_universe_union_witness :
    Value.str "T" ∈ (create_universe [("A", dfA)]).all_tables ∧
    Value.str "T" ∈ sourceTables dfA :=
  ⟨(C7_universe_union [("A", dfA)] (Value.str "T") (Value.str "T") (Value.str "C")).1.mpr
      ⟨("A", dfA), by decide, by decide⟩,
   (C7_universe_union [("A", dfA)] (Value.str "T") (Value.str "T") (Value.str "C")).2.2
      dfA (Value.str "C") (Value.str "T") (by decide)⟩

/-- Claim C1 counterexample: for sources `A` (with a `DATA_TYPE` column,
value `NUMBER`) and `B` (without it) holding the same table `T` and
column `C`, the claim's emission condition holds for `DATA_TYPE` — it is
a column of at least one source's schema and the normalized values
(`NUMBER` vs the `None` sentinel) are two distinct values — yet the code
emits nothing, because its guard consults only the columns of the source
that iterates last. -/
theorem C1_claim_counterexample :
    specC1Emits [("A", dfA), ("B", dfB)] (Value.str "T") (Value.str "C") "DATA_TYPE" = true ∧
    find_attribute_differences (create_universe [("A", dfA), ("B", dfB)])
      [("A", dfA), ("B", dfB)] = [] := by
  refine ⟨by decide, by decide⟩

/-- Claim C8 counterexample: the two orders of the same two sources are
permutations of each other, yet one order yields no difference records
while the other yields a `DATA_TYPE Different` record — the stale
last-source column guard of the attribute detector makes the output
depend on the mapping's insertion order. -/
theorem C8_claim_counterexample :
    [("A", some dfA), ("B", some dfB)].Perm [("B", some dfB), ("A", some dfA)] ∧
    recordsOf (compare_all_schemas [("A", some dfA), ("B", some dfB)]) = [] ∧
    recordsOf (compare_all_schemas [("B", some dfB), ("A", some dfA)]) =
      [{ table := Value.str "T", column := Value.str "C", dtype := "DATA_TYPE Different"
         entries := [("B", "NULL"), ("A", "NUMBER")] }] := by
  refine ⟨List.Perm.swap ("B", some dfB) ("A", some dfA) [], by decide, by decide⟩

/-- Witness for claim C10: appending a third duplicate row changes
nothing, and the `NaN`-valued row yields the empty string. -/
theorem C10_first_row_and_nan_witness :
    entryStatusValue
        ⟨evDup.cols, evDup.rows ++ [[Value.str "TPL", Value.str "EVT", Value.str "Z"]]⟩
        "events" (Value.str "TPL", Value.str "EVT")
      = entryStatusValue evDup "events" (Value.str "TPL", Value.str "EVT") ∧
    entryStatusValue evNan "events" (Value.str "TPL", Value.str "EVT") = ("EXISTS", "") :=
  ⟨C10_first_row_and_nan.1 evDup [[Value.str "TPL", Value.str "EVT", Value.str "Z"]]
      "events" (Value.str "TPL", Value.str "EVT") (by decide),
   C10_first_row_and_nan.2.1 evNan "events" (Value.str "TPL", Value.str "EVT")
      [Value.str "TPL", Value.str "EVT", Value.null] [] (by decide) (by decide)⟩

/-!
## Claim theorems: the existence difference detectors
-/

theorem contains_iff_mem {α : Type} [DecidableEq α] {l : List α} {a : α} :
    l.contains a = true ↔ a ∈ l :=
  List.elem_iff

theorem tableStatus_eq_mem (df : DataFrame) (t : Value) :
    tableStatus df t = if (sourceTables df).contains t then "EXISTS" else "MISSING" := by
  unfold tableStatus sourceTables
  by_cases h1 : df.hasCol "TABLE_NAME" <;> by_cases h2 : df.isEmpty <;>
    simp [h1, h2]

theorem tableStatus_beq (df : DataFrame) (t : Value) :
    (tableStatus df t == "EXISTS") = (sourceTables df).contains t := by
  rw [tableStatus_eq_mem]
  cases h : (sourceTables df).contains t <;> simp [h]

theorem tableStatus_cases (df : DataFrame) (t : Value) :
    tableStatus df t = "EXISTS" ∨ tableStatus df t = "MISSING" := by
  unfold tableStatus
  split
  · exact Or.inl rfl
  · exact Or.inr rfl

theorem tableDiffRow_table (u : SchemaUniverse) (schemas : List (String × DataFrame))
    (a : Value) (r : DiffRecord) (h : tableDiffRow u schemas a = some r) :
    r.table = a := by
  simp only [tableDiffRow] at h
  split at h
  · cases h
  · cases h
    rfl

/-- Claim C4: for every object of the universe the existence detector
takes each source's status from membership in that source's object set,
emits exactly one table-missing record (the spec's "Object Missing")
precisely when the distinct statuses number more than one, and the
emitted record's per-source map is exactly `EXISTS` on the sources
containing the object and `MISSING` on the others. -/
theorem C4_table_missing_emission (schemas : List (String × DataFrame))
    (hnd : (schemas.map Prod.fst).Nodup) (t : Value)
    (ht : t ∈ (create_universe schemas).all_tables) :
    (((find_table_differences (create_universe schemas) schemas).filter
        (fun r => r.table == t)).length =
      if 1 < (schemas.map (fun p =>
          if (sourceTables p.2).contains t then "EXISTS" else "MISSING")).dedup.length
      then 1 else 0) ∧
    ∀ r ∈ (find_table_differences (create_universe schemas) schemas).filter
        (fun r => r.table == t),
      r.entries = schemas.map (fun p =>
        (p.1, if (sourceTables p.2).contains t then "EXISTS" else "MISSING")) := by
  have hstat : (schemas.map (fun p =>
      if (sourceTables p.2).contains t then "EXISTS" else "MISSING"))
      = schemas.map (fun p => tableStatus p.2 t) :=
    List.map_congr_left (fun p _ => (tableStatus_eq_mem p.2 t).symm)
  have hsub : ∀ s ∈ schemas.map (fun p => tableStatus p.2 t),
      s = "EXISTS" ∨ s = "MISSING" := by
    intro s hs
    obtain ⟨p, hp, rfl⟩ := List.mem_map.mp hs
    exact tableStatus_cases p.2 t
  have hE : "EXISTS" ∈ schemas.map (fun p => tableStatus p.2 t) := by
    obtain ⟨p, hp, hm⟩ := (mem_all_tables schemas t).mp ht
    refine List.mem_map.mpr ⟨p, hp, ?_⟩
    rw [tableStatus_eq_mem, if_pos (contains_iff_mem.mpr hm)]
  have hcode :
      (((schemas.map (fun p => (p.1, tableStatus p.2 t))).filter
        (fun q => q.2 == "MISSING")).isEmpty = true) ↔
      "MISSING" ∉ schemas.map (fun p => tableStatus p.2 t) := by
    rw [List.isEmpty_iff, List.filter_eq_nil_iff]
    constructor
    · intro h hmem
      obtain ⟨p, hp, hps⟩ := List.mem_map.mp hmem
      have hx := h (p.1, tableStatus p.2 t) (List.mem_map.mpr ⟨p, hp, rfl⟩)
      rw [hps] at hx
      simp at hx
    · intro h q hq
      obtain ⟨p, hp, rfl⟩ := List.mem_map.mp hq
      simp only [beq_iff_eq]
      intro hps
      exact h (List.mem_map.mpr ⟨p, hp, hps⟩)
  have hnone : ∀ a ∈ (create_universe schemas).all_tables, a ≠ t →
      Option.filter (fun r => r.table == t)
        (tableDiffRow (create_universe schemas) schemas a) = none := by
    intro a ha hat
    cases hR : tableDiffRow (create_universe schemas) schemas a with
    | none => rfl
    | some r =>
      have hrt : r.table = a := tableDiffRow_table _ _ _ _ hR
      simp [Option.filter, hrt, beq_eq_false_iff_ne.mpr hat]
  have hfil : (find_table_differences (create_universe schemas) schemas).filter
      (fun r => r.table == t)
      = (tableDiffRow (create_universe schemas) schemas t).toList := by
    rw [find_table_differences, List.filter_filterMap,
      filterMap_eq_of_unique (all_tables_nodup schemas) ht hnone]
    cases hR : tableDiffRow (create_universe schemas) schemas t with
    | none => rfl
    | some r =>
      have hrt : r.table = t := tableDiffRow_table _ _ _ _ hR
      simp [Option.filter, hrt]
  rw [hfil, hstat]
  by_cases hM : "MISSING" ∈ schemas.map (fun p => tableStatus p.2 t)
  · have hcE : ((schemas.map (fun p => (p.1, tableStatus p.2 t))).filter
        (fun q => q.2 == "MISSING")).isEmpty = false := by
      cases hx : ((schemas.map (fun p => (p.1, tableStatus p.2 t))).filter
          (fun q => q.2 == "MISSING")).isEmpty with
      | true => exact absurd hM (hcode.mp hx)
      | false => rfl
    cases hRow : tableDiffRow (create_universe schemas) schemas t with
    | none =>
      exfalso
      simp only [tableDiffRow, hcE, Bool.false_eq_true, if_false] at hRow
      cases hRow
    | some r =>
      have hRow' := hRow
      simp only [tableDiffRow, hcE, Bool.false_eq_true, if_false,
        Option.some.injEq] at hRow'
      constructor
      · rw [if_pos ((two_status_iff _ hsub).mp ⟨hE, hM⟩)]
        rfl
      · intro r' hr'
        simp only [Option.toList_some, List.mem_singleton] at hr'
        subst hr'
        rw [← hRow']
        show (create_universe schemas).schema_names.map
            (fun n => (n, lookupD (schemas.map (fun p => (p.1, tableStatus p.2 t))) n "N/A"))
          = _
        have hnames : (create_universe schemas).schema_names
            = (schemas.map (fun p => (p.1, tableStatus p.2 t))).map Prod.fst := by
          show schemas.map Prod.fst = _
          rw [List.map_map]
          rfl
        have hnd2 : ((schemas.map (fun p => (p.1, tableStatus p.2 t))).map
            Prod.fst).Nodup := by
          rw [List.map_map]
          exact hnd
        rw [hnames, assoc_reconstruct _ _ hnd2]
        exact List.map_congr_left (fun p _ => by rw [tableStatus_eq_mem])
  · have hcT : ((schemas.map (fun p => (p.1, tableStatus p.2 t))).filter
        (fun q => q.2 == "MISSING")).isEmpty = true := hcode.mpr hM
    cases hRow : tableDiffRow (create_universe schemas) schemas t with
    | some r =>
      exfalso
      simp only [tableDiffRow, hcT] at hRow
      cases hRow
    | none =>
      constructor
      · rw [if_neg (fun hlt => hM ((two_status_iff _ hsub).mpr hlt).2)]
        rfl
      · intro r' hr'
        cases hr'

/-- Witness for claim C4 on two one-table sources: table `T1` exists
only in the first, so exactly one record with the exact status map is
emitted. -/
theorem C4_table_missing_witness :
    (((find_table_differences (create_universe [("A", wsX), ("B", wsY)])
        [("A", wsX), ("B", wsY)]).filter
        (fun r => r.table == Value.str "T1")).length =
      if 1 < ([("A", wsX), ("B", wsY)].map (fun p =>
          if (sourceTables p.2).contains (Value.str "T1") then "EXISTS"
          else "MISSING")).dedup.length
      then 1 else 0) ∧
    ∀ r ∈ (find_table_differences (create_universe [("A", wsX), ("B", wsY)])
        [("A", wsX), ("B", wsY)]).filter (fun r => r.table == Value.str "T1"),
      r.entries = [("A", wsX), ("B", wsY)].map (fun p =>
        (p.1, if (sourceTables p.2).contains (Value.str "T1") then "EXISTS"
              else "MISSING")) :=
  C4_table_missing_emission [("A", wsX), ("B", wsY)] (by decide) (Value.str "T1")
    (by decide)

theorem columnStatus_cases (df : DataFrame) (t c : Value) :
    columnStatus df t c = "EXISTS" ∨ columnStatus df t c = "MISSING" := by
  simp only [columnStatus]
  split
  · exact Or.inl rfl
  · exact Or.inr rfl

theorem columnDiffRow_fields (u : SchemaUniverse) (schemas : List (String × DataFrame))
    (tb cl : Value) (r : DiffRecord) (h : columnDiffRow u schemas tb cl = some r) :
    r.table = tb ∧ r.column = cl := by
  simp only [columnDiffRow] at h
  split at h
  · cases h
    exact ⟨rfl, rfl⟩
  · cases h

theorem columnStatus_exists_mem (df : DataFrame) (t c : Value)
    (hT : t ∈ sourceTables df) (hE : columnStatus df t c = "EXISTS") :
    c ∈ sourceTableCols df t := by
  have hg : (df.hasCol "TABLE_NAME" && !df.isEmpty) = true := by
    by_contra hgx
    unfold sourceTables at hT
    rw [if_neg hgx] at hT
    cases hT
  simp only [columnStatus] at hE
  by_cases hc : (!(df.filterEq "TABLE_NAME" t).isEmpty && df.hasCol "COLUMN_NAME"
      && ((df.filterEq "TABLE_NAME" t).colValues "COLUMN_NAME").contains c) = true
  · simp only [Bool.and_eq_true] at hc hg
    unfold sourceTableCols
    rw [if_pos (by simp [hg.1, hc.1.2])]
    exact contains_iff_mem.mp hc.2
  · rw [if_neg hc] at hE
    exact absurd hE (by decide)

/-- The per-column emission guard of `_find_column_differences` holds
exactly when the per-source statuses over the sources containing the
table take more than one distinct value. -/
theorem column_cond_iff (schemas : List (String × DataFrame)) (tb cl : Value) :
    (0 < (((schemasWithTable schemas tb).map
          (fun p => (p.1, columnStatus p.2 tb cl))).filter
        (fun q => q.2 == "MISSING")).length ∧
      (((schemasWithTable schemas tb).map
          (fun p => (p.1, columnStatus p.2 tb cl))).filter
        (fun q => q.2 == "MISSING")).length < (schemasWithTable schemas tb).length) ↔
    1 < ((schemasWithTable schemas tb).map
        (fun p => columnStatus p.2 tb cl)).dedup.length := by
  have hbr : (((schemasWithTable schemas tb).map
      (fun p => (p.1, columnStatus p.2 tb cl))).filter
      (fun q => q.2 == "MISSING")).length
      = List.countP (fun p => columnStatus p.2 tb cl == "MISSING")
          (schemasWithTable schemas tb) := by
    rw [List.filter_map, List.length_map, List.countP_eq_length_filter]
    rfl
  rw [hbr]
  have hsub : ∀ s ∈ (schemasWithTable schemas tb).map (fun p => columnStatus p.2 tb cl),
      s = "EXISTS" ∨ s = "MISSING" := by
    intro s hs
    obtain ⟨p, hp, rfl⟩ := List.mem_map.mp hs
    exact columnStatus_cases p.2 tb cl
  rw [← two_status_iff _ hsub]
  constructor
  · rintro ⟨h0, h1⟩
    constructor
    · by_contra hEx
      have hall : ∀ p ∈ schemasWithTable schemas tb,
          (columnStatus p.2 tb cl == "MISSING") = true := by
        intro p hp
        rcases columnStatus_cases p.2 tb cl with hCE | hCM
        · exact absurd (List.mem_map.mpr ⟨p, hp, hCE⟩) hEx
        · simp [hCM]
      rw [List.countP_eq_length.mpr hall] at h1
      omega
    · obtain ⟨p, hp, hps⟩ := List.countP_pos_iff.mp h0
      exact List.mem_map.mpr ⟨p, hp, by simpa using hps⟩
  · rintro ⟨hEm, hMm⟩
    constructor
    · obtain ⟨p, hp, hps⟩ := List.mem_map.mp hMm
      exact List.countP_pos_iff.mpr ⟨p, hp, by simp [hps]⟩
    · obtain ⟨p, hp, hps⟩ := List.mem_map.mp hEm
      rcases Nat.lt_or_ge (List.countP (fun p => columnStatus p.2 tb cl == "MISSING")
          (schemasWithTable schemas tb)) (schemasWithTable schemas tb).length with h | h
      · exact h
      · exfalso
        have heq : List.countP (fun p => columnStatus p.2 tb cl == "MISSING")
            (schemasWithTable schemas tb) = (schemasWithTable schemas tb).length :=
          le_antisymm (List.countP_le_length _) h
        have hx := List.countP_eq_length.mp heq p hp
        rw [hps] at hx
        simp at hx

/-- Claim C5: a column-missing record (the spec's "Sub-object Missing")
for a (table, column) pair is emitted exactly when the column's
existence status over the sources containing the parent table is
non-uniform and the table is present in at least 2 sources; a table
present in a single source never yields such records for its columns. -/
theorem C5_column_missing_emission (schemas : List (String × DataFrame)) (t c : Value) :
    ((∃ r ∈ find_column_differences (create_universe schemas) schemas,
        r.table = t ∧ r.column = c) ↔
      (2 ≤ (schemas.filter (fun p => (sourceTables p.2).contains t)).length ∧
        1 < ((schemas.filter (fun p => (sourceTables p.2).contains t)).map
            (fun p => columnStatus p.2 t c)).dedup.length)) ∧
    ((schemas.filter (fun p => (sourceTables p.2).contains t)).length = 1 →
      ∀ r ∈ find_column_differences (create_universe schemas) schemas, r.table ≠ t) := by
  have hWT : schemas.filter (fun p => (sourceTables p.2).contains t)
      = schemasWithTable schemas t := by
    unfold schemasWithTable
    exact List.filter_congr (fun p _ => (tableStatus_beq p.2 t).symm)
  rw [hWT]
  constructor
  · constructor
    · rintro ⟨r, hr, hrt, hrc⟩
      rw [find_column_differences] at hr
      obtain ⟨tb, htb, hrin⟩ := List.mem_flatMap.mp hr
      by_cases hlen : (schemasWithTable schemas tb).length ≤ 1
      · rw [if_pos hlen] at hrin
        cases hrin
      · rw [if_neg hlen] at hrin
        obtain ⟨cl, hcl, hsome⟩ := List.mem_filterMap.mp hrin
        obtain ⟨ht1, hc1⟩ := columnDiffRow_fields _ _ _ _ _ hsome
        rw [hrt] at ht1
        rw [hrc] at hc1
        subst ht1
        subst hc1
        refine ⟨by omega, ?_⟩
        simp only [columnDiffRow] at hsome
        split at hsome
        next hcond => exact (column_cond_iff schemas t c).mp hcond
        next hcond => cases hsome
    · rintro ⟨hlen2, hdedup⟩
      have hne : schemasWithTable schemas t ≠ [] := by
        intro hx
        rw [hx] at hlen2
        simp at hlen2
      have hT : t ∈ (create_universe schemas).all_tables := by
        obtain ⟨p, hp⟩ := List.exists_mem_of_ne_nil _ hne
        simp only [schemasWithTable] at hp
        have hp2 := List.mem_filter.mp hp
        refine (mem_all_tables schemas t).mpr ⟨p, hp2.1, ?_⟩
        have hx := hp2.2
        rw [tableStatus_beq] at hx
        exact contains_iff_mem.mp hx
      have hEx : ∃ p ∈ schemasWithTable schemas t, columnStatus p.2 t c = "EXISTS" := by
        have hsub : ∀ s ∈ (schemasWithTable schemas t).map
            (fun p => columnStatus p.2 t c), s = "EXISTS" ∨ s = "MISSING" := by
          intro s hs
          obtain ⟨p, hp, rfl⟩ := List.mem_map.mp hs
          exact columnStatus_cases p.2 t c
        obtain ⟨hEm, _⟩ := (two_status_iff _ hsub).mpr hdedup
        obtain ⟨p, hp, hps⟩ := List.mem_map.mp hEm
        exact ⟨p, hp, hps⟩
      have hC : c ∈ (create_universe schemas).colsFor t := by
        obtain ⟨p, hp, hps⟩ := hEx
        simp only [schemasWithTable] at hp
        have hp2 := List.mem_filter.mp hp
        have hTmem : t ∈ sourceTables p.2 := by
          have hx := hp2.2
          rw [tableStatus_beq] at hx
          exact contains_iff_mem.mp hx
        have hcc : c ∈ sourceTableCols p.2 t := columnStatus_exists_mem p.2 t c hTmem hps
        rw [colsFor_eq _ _ hT]
        exact mem_sortValues.mpr (List.mem_dedup.mpr (List.mem_flatMap.mpr ⟨p, hp2.1, hcc⟩))
      have hcond := (column_cond_iff schemas t c).mpr hdedup
      cases hrow : columnDiffRow (create_universe schemas) schemas t c with
      | none =>
        exfalso
        simp only [columnDiffRow] at hrow
        rw [if_pos hcond] at hrow
        cases hrow
      | some r =>
        obtain ⟨hrt, hrc⟩ := columnDiffRow_fields _ _ _ _ _ hrow
        refine ⟨r, ?_, hrt, hrc⟩
        rw [find_column_differences]
        refine List.mem_flatMap.mpr ⟨t, hT, ?_⟩
        rw [if_neg (by omega)]
        exact List.mem_filterMap.mpr ⟨c, hC, hrow⟩
  · intro h1 r hr hrt
    rw [find_column_differences] at hr
    obtain ⟨tb, htb, hrin⟩ := List.mem_flatMap.mp hr
    by_cases hlen : (schemasWithTable schemas tb).length ≤ 1
    · rw [if_pos hlen] at hrin
      cases hrin
    · rw [if_neg hlen] at hrin
      obtain ⟨cl, hcl, hsome⟩ := List.mem_filterMap.mp hrin
      obtain ⟨ht1, _⟩ := columnDiffRow_fields _ _ _ _ _ hsome
      rw [hrt] at ht1
      subst ht1
      omega

/-- Witness for claim C5: column `D` of table `T1` exists in one of the
two sources containing `T1`, so a record is emitted; a table held by a
single source yields none. -/
theorem C5_column_missing_witness :
    (∃ r ∈ find_column_differences (create_universe [("A", wsX), ("B", wsZ)])
        [("A", wsX), ("B", wsZ)],
      r.table = Value.str "T1" ∧ r.column = Value.str "D") ∧
    ∀ r ∈ find_column_differences (create_universe [("A", wsX)]) [("A", wsX)],
      r.table ≠ Value.str "T1" :=
  ⟨(C5_column_missing_emission [("A", wsX), ("B", wsZ)] (Value.str "T1")
      (Value.str "D")).1.mpr (by decide),
   (C5_column_missing_emission [("A", wsX)] (Value.str "T1") (Value.str "D")).2
      (by decide)⟩

/-!
## Claim theorems: the attribute difference detector
-/

theorem attrDiffRow_fields (u : SchemaUniverse) (schemas : List (String × DataFrame))
    (tb cl : Value) (attr : String) (r : DiffRecord)
    (h : attrDiffRow u schemas tb cl attr = some r) :
    r.table = tb ∧ r.column = cl ∧ r.dtype = attr ++ " Different" := by
  simp only [attrDiffRow] at h
  split at h
  · cases h
  · split at h
    · cases h
      exact ⟨rfl, rfl, rfl⟩
    · cases h

theorem attr_dtype_inj : ∀ a ∈ attrSet, ∀ b ∈ attrSet,
    a ++ " Different" = b ++ " Different" → a = b := by decide

theorem attrInfos_mem_universe (schemas : List (String × DataFrame)) (t c : Value)
    (h : attrInfos schemas t c ≠ []) :
    t ∈ (create_universe schemas).all_tables ∧
      c ∈ (create_universe schemas).colsFor t := by
  obtain ⟨q, hq⟩ := List.exists_mem_of_ne_nil _ h
  obtain ⟨p, hp, heq⟩ := List.mem_filterMap.mp hq
  by_cases hg : (p.2.isEmpty || !p.2.hasCol "TABLE_NAME" || !p.2.hasCol "COLUMN_NAME")
      = true
  · rw [if_pos hg] at heq
    cases heq
  · rw [if_neg hg] at heq
    simp only [Bool.or_eq_true, not_or, Bool.not_eq_true] at hg
    obtain ⟨⟨hg1, hg2⟩, hg3⟩ := hg
    simp at hg2 hg3
    cases hrows : ((p.2.filterEq "TABLE_NAME" t).filterEq "COLUMN_NAME" c).rows with
    | nil =>
      rw [hrows] at heq
      cases heq
    | cons r rest =>
      have hr2 : r ∈ ((p.2.filterEq "TABLE_NAME" t).filterEq "COLUMN_NAME" c).rows := by
        rw [hrows]
        exact List.mem_cons_self r rest
      obtain ⟨hr1, hcn⟩ := List.mem_filter.mp hr2
      obtain ⟨hr0, htn⟩ := List.mem_filter.mp hr1
      have hTm : t ∈ sourceTables p.2 := by
        unfold sourceTables
        rw [if_pos (by simp [hg1, hg2])]
        exact List.mem_filterMap.mpr ⟨r, hr0, eq_of_beq htn⟩
      have hCm : c ∈ sourceTableCols p.2 t := by
        unfold sourceTableCols
        rw [if_pos (by simp [hg2, hg3])]
        exact List.mem_filterMap.mpr ⟨r, hr1, eq_of_beq hcn⟩
      have hT : t ∈ (create_universe schemas).all_tables :=
        (mem_all_tables schemas t).mpr ⟨p, hp, hTm⟩
      refine ⟨hT, ?_⟩
      rw [colsFor_eq _ _ hT]
      exact mem_sortValues.mpr (List.mem_dedup.mpr (List.mem_flatMap.mpr ⟨p, hp, hCm⟩))

/-- Claim C1 as amended: `_find_attribute_differences` emits a record
for (table, column, attribute) exactly when the pair is present in at
least 2 sources, the attribute is a column of the source that iterates
last in the mapping (rather than of any source, the stale `df` guard of
line 360), and the per-source values — `NaN`/null and absent both
normalized to the `None` sentinel — take more than one distinct value. -/
theorem C1_attr_emission_amended (schemas : List (String × DataFrame)) (t c : Value)
    (attr : String) (hattr : attr ∈ attrSet) :
    (∃ r ∈ find_attribute_differences (create_universe schemas) schemas,
        r.table = t ∧ r.column = c ∧ r.dtype = attr ++ " Different") ↔
      (2 ≤ (attrInfos schemas t c).length ∧
        (lastCols schemas).contains attr = true ∧
        1 < ((attrVals (attrInfos schemas t c) attr).map Prod.snd).dedup.length) := by
  constructor
  · rintro ⟨r, hr, hrt, hrc, hrd⟩
    rw [find_attribute_differences] at hr
    obtain ⟨tb, htb, hr1⟩ := List.mem_flatMap.mp hr
    obtain ⟨cl, hcl, hr2⟩ := List.mem_flatMap.mp hr1
    by_cases hlen : (attrInfos schemas tb cl).length < 2
    · rw [if_pos hlen] at hr2
      cases hr2
    · rw [if_neg hlen] at hr2
      obtain ⟨attr', hattr', hsome⟩ := List.mem_filterMap.mp hr2
      obtain ⟨ht1, hc1, hd1⟩ := attrDiffRow_fields _ _ _ _ _ _ hsome
      rw [hrt] at ht1
      rw [hrc] at hc1
      rw [hrd] at hd1
      have hattr2 : attr = attr' := attr_dtype_inj attr hattr attr' hattr' hd1
      subst ht1
      subst hc1
      subst hattr2
      simp only [attrDiffRow] at hsome
      split at hsome
      · cases hsome
      next hguard =>
        split at hsome
        next hded => exact ⟨by omega, by simpa using hguard, hded⟩
        next => cases hsome
  · rintro ⟨hlen, hlast, hded⟩
    have hne : attrInfos schemas t c ≠ [] := by
      intro hx
      rw [hx] at hlen
      simp at hlen
    obtain ⟨hT, hC⟩ := attrInfos_mem_universe schemas t c hne
    cases hrow : attrDiffRow (create_universe schemas) schemas t c attr with
    | none =>
      exfalso
      simp only [attrDiffRow] at hrow
      rw [if_neg (by rw [hlast]; simp)] at hrow
      rw [if_pos hded] at hrow
      cases hrow
    | some r =>
      obtain ⟨hrt, hrc, hrd⟩ := attrDiffRow_fields _ _ _ _ _ _ hrow
      refine ⟨r, ?_, hrt, hrc, hrd⟩
      rw [find_attribute_differences]
      refine List.mem_flatMap.mpr ⟨t, hT, List.mem_flatMap.mpr ⟨c, hC, ?_⟩⟩
      rw [if_neg (by omega)]
      exact List.mem_filterMap.mpr ⟨attr, hattr, hrow⟩

/-- Witness for claim C1's amended characterization: with the
`DATA_TYPE`-bearing source last in the mapping, the record is emitted. -/
theorem C1_attr_emission_witness :
    ∃ r ∈ find_attribute_differences (create_universe [("B", dfB), ("A", dfA)])
        [("B", dfB), ("A", dfA)],
      r.table = Value.str "T" ∧ r.column = Value.str "C" ∧
        r.dtype = "DATA_TYPE" ++ " Different" :=
  (C1_attr_emission_amended [("B", dfB), ("A", dfA)] (Value.str "T") (Value.str "C")
      "DATA_TYPE" (by decide)).mpr (by decide)

/-!
## Order-independence machinery for claim C8
-/

theorem perm_isEmpty {α : Type} {l l' : List α} (h : l.Perm l') :
    l.isEmpty = l'.isEmpty := by
  cases l with
  | nil =>
    rw [(List.perm_nil.mp h.symm)]
  | cons a t =>
    cases l' with
    | nil => exact absurd (List.perm_nil.mp h) (by simp)
    | cons b t' => rfl

theorem forall₂_append {α β : Type} {R : α → β → Prop} {a b : List α} {c d : List β}
    (h1 : List.Forall₂ R a c) (h2 : List.Forall₂ R b d) :
    List.Forall₂ R (a ++ b) (c ++ d) := by
  induction h1 with
  | nil => exact h2
  | cons hR _ ih => exact List.Forall₂.cons hR ih

theorem forall₂_filterMap {α β : Type} {R : β → β → Prop} (l : List α)
    (F G : α → Option β)
    (h : ∀ a ∈ l, (F a = none ∧ G a = none) ∨
        ∃ b b', F a = some b ∧ G a = some b' ∧ R b b') :
    List.Forall₂ R (l.filterMap F) (l.filterMap G) := by
  induction l with
  | nil => exact List.Forall₂.nil
  | cons a l ih =>
    have ih' := ih (fun x hx => h x (List.mem_cons_of_mem _ hx))
    rcases h a (List.mem_cons_self a l) with ⟨hF, hG⟩ | ⟨b, b', hF, hG, hR⟩
    · rw [List.filterMap_cons, List.filterMap_cons, hF, hG]
      exact ih'
    · rw [List.filterMap_cons, List.filterMap_cons, hF, hG]
      exact List.Forall₂.cons hR ih'

theorem forall₂_flatMap {α β : Type} {R : β → β → Prop} (l : List α)
    (F G : α → List β) (h : ∀ a ∈ l, List.Forall₂ R (F a) (G a)) :
    List.Forall₂ R (l.flatMap F) (l.flatMap G) := by
  induction l with
  | nil => exact List.Forall₂.nil
  | cons a l ih =>
    rw [List.flatMap_cons, List.flatMap_cons]
    exact forall₂_append (h a (List.mem_cons_self a l))
      (ih (fun x hx => h x (List.mem_cons_of_mem _ hx)))

theorem lookup_eq_of_perm {β : Type} {l l' : List (String × β)} (hperm : l.Perm l')
    (a : String) : (l.map Prod.fst).Nodup → l.lookup a = l'.lookup a := by
  induction hperm with
  | nil => intro _; rfl
  | cons x h ih =>
    intro hnd
    obtain ⟨k, v⟩ := x
    simp only [List.map_cons, List.nodup_cons] at hnd
    simp only [List.lookup]
    cases a == k
    · exact ih hnd.2
    · rfl
  | swap x y l =>
    intro hnd
    obtain ⟨k1, v1⟩ := x
    obtain ⟨k2, v2⟩ := y
    simp only [List.map_cons, List.nodup_cons, List.mem_cons] at hnd
    simp only [List.lookup]
    cases h2 : a == k2 <;> cases h1 : a == k1 <;>
      first
        | rfl
        | exact absurd (Or.inl ((eq_of_beq h2).symm.trans (eq_of_beq h1))) hnd.1
  | trans h12 h23 ih1 ih2 =>
    intro hnd
    refine (ih1 hnd).trans (ih2 ?_)
    exact hnd.perm (h12.map Prod.fst)

theorem entries_rel (g g' : String → String) (names names' : List String)
    (hp : names.Perm names') (hg : ∀ n, g n = g' n) :
    (∀ m : String, (names.map (fun n => (n, g n))).lookup m
        = (names'.map (fun n => (n, g' n))).lookup m) ∧
    ((names.map (fun n => (n, g n))).map Prod.fst).Perm
      ((names'.map (fun n => (n, g' n))).map Prod.fst) := by
  constructor
  · intro m
    rw [lookup_map_pair, lookup_map_pair]
    by_cases hm : m ∈ names
    · rw [if_pos hm, if_pos (hp.mem_iff.mp hm), hg]
    · rw [if_neg hm, if_neg (fun hx => hm (hp.mem_iff.mpr hx))]
  · have h1 : ∀ (h : String → String) (ns : List String),
        (ns.map (fun n => (n, h n))).map Prod.fst = ns := by
      intro h ns
      induction ns with
      | nil => rfl
      | cons x t ih =>
        simp only [List.map_cons]
        rw [ih]
    rw [h1, h1]
    exact hp

theorem filterMap_fst_sublist {β γ : Type} (l : List (String × β))
    (F : String × β → Option (String × γ))
    (hF : ∀ p q, F p = some q → q.1 = p.1) :
    ((l.filterMap F).map Prod.fst).Sublist (l.map Prod.fst) := by
  induction l with
  | nil => simp
  | cons p l ih =>
    rw [List.filterMap_cons]
    cases hFp : F p with
    | none =>
      rw [List.map_cons]
      exact ih.cons p.1
    | some q =>
      rw [List.map_cons, List.map_cons, hF p q hFp]
      exact ih.cons₂ p.1

theorem lastCols_contains_eq (N Np : List (String × DataFrame)) (hperm : N.Perm Np)
    (a : String)
    (hattr : ∀ p ∈ N, ∀ q ∈ N, p.2.cols.contains a = q.2.cols.contains a) :
    (lastCols N).contains a = (lastCols Np).contains a := by
  cases hN : N.getLast? with
  | none =>
    have hnil : N = [] := List.getLast?_eq_none_iff.mp hN
    subst hnil
    have hnil' : Np = [] := List.perm_nil.mp hperm.symm
    subst hnil'
    rfl
  | some p =>
    have hpN : p ∈ N := by
      obtain ⟨ys, hys⟩ := List.getLast?_eq_some_iff.mp hN
      rw [hys]
      exact List.mem_append_right ys (List.mem_singleton.mpr rfl)
    cases hN' : Np.getLast? with
    | none =>
      exfalso
      have hnil' : Np = [] := List.getLast?_eq_none_iff.mp hN'
      subst hnil'
      rw [List.perm_nil.mp hperm] at hN
      cases hN
    | some q =>
      have hqN : q ∈ N := by
        obtain ⟨ys, hys⟩ := List.getLast?_eq_some_iff.mp hN'
        refine hperm.mem_iff.mpr ?_
        rw [hys]
        exact List.mem_append_right ys (List.mem_singleton.mpr rfl)
      simp only [lastCols, hN, hN']
      exact hattr p hpN q hqN

theorem sortValues_dedup_eq_of_perm {l l' : List Value} (h : l.Perm l') :
    sortValues l.dedup = sortValues l'.dedup := by
  haveI : IsTotal Value (fun a b => Value.le a b = true) := ⟨Value.le_total⟩
  haveI : IsTrans Value (fun a b => Value.le a b = true) := ⟨Value.le_trans⟩
  haveI : IsAntisymm Value (fun a b => Value.le a b = true) := ⟨Value.le_antisymm⟩
  refine List.eq_of_perm_of_sorted ?_ (List.sorted_insertionSort _ _)
    (List.sorted_insertionSort _ _)
  exact (List.perm_insertionSort _ _).trans (h.dedup.trans
    (List.perm_insertionSort _ _).symm)

theorem isEmpty_eq_of_length_eq {α β : Type} {l : List α} {l' : List β}
    (h : l.length = l'.length) : l.isEmpty = l'.isEmpty := by
  cases l with
  | nil =>
    cases l' with
    | nil => rfl
    | cons b t => simp at h
  | cons a t =>
    cases l' with
    | nil => simp at h
    | cons b t' => rfl

theorem all_tables_perm_eq (N Np : List (String × DataFrame)) (hperm : N.Perm Np) :
    (create_universe N).all_tables = (create_universe Np).all_tables :=
  sortValues_dedup_eq_of_perm (hperm.flatMap_right _)

theorem colsFor_perm_eq (N Np : List (String × DataFrame)) (hperm : N.Perm Np)
    (t : Value) : (create_universe Np).colsFor t = (create_universe N).colsFor t := by
  unfold SchemaUniverse.colsFor
  have htc : (create_universe Np).table_columns = (create_universe N).table_columns := by
    show (create_universe Np).all_tables.map _ = (create_universe N).all_tables.map _
    rw [← all_tables_perm_eq N Np hperm]
    refine List.map_congr_left ?_
    intro x _
    rw [← sortValues_dedup_eq_of_perm (hperm.flatMap_right _)]
  rw [htc]

theorem tableDiffRow_rel (N Np : List (String × DataFrame)) (hperm : N.Perm Np)
    (hnd : (N.map Prod.fst).Nodup) (t : Value) :
    (tableDiffRow (create_universe N) N t = none ∧
      tableDiffRow (create_universe Np) Np t = none) ∨
    ∃ b b', tableDiffRow (create_universe N) N t = some b ∧
      tableDiffRow (create_universe Np) Np t = some b' ∧ RecEquiv b b' := by
  have hstatperm : (N.map (fun p => (p.1, tableStatus p.2 t))).Perm
      (Np.map (fun p => (p.1, tableStatus p.2 t))) := hperm.map _
  have hkeys : ((N.map (fun p => (p.1, tableStatus p.2 t))).map Prod.fst).Nodup := by
    rw [List.map_map]
    exact hnd
  have hguard : ((N.map (fun p => (p.1, tableStatus p.2 t))).filter
      (fun q => q.2 == "MISSING")).isEmpty
      = ((Np.map (fun p => (p.1, tableStatus p.2 t))).filter
      (fun q => q.2 == "MISSING")).isEmpty := perm_isEmpty (hstatperm.filter _)
  simp only [tableDiffRow]
  rw [← hguard]
  cases hg : ((N.map (fun p => (p.1, tableStatus p.2 t))).filter
      (fun q => q.2 == "MISSING")).isEmpty with
  | true => exact Or.inl ⟨rfl, rfl⟩
  | false =>
    have hent := entries_rel
      (fun n => lookupD (N.map (fun p => (p.1, tableStatus p.2 t))) n "N/A")
      (fun n => lookupD (Np.map (fun p => (p.1, tableStatus p.2 t))) n "N/A")
      (N.map Prod.fst) (Np.map Prod.fst) (hperm.map _)
      (fun n => by
        simp only [lookupD]
        rw [lookup_eq_of_perm hstatperm n hkeys])
    exact Or.inr ⟨_, _, rfl, rfl, rfl, rfl, rfl, hent.1, hent.2⟩

theorem find_table_differences_rel (N Np : List (String × DataFrame))
    (hperm : N.Perm Np) (hnd : (N.map Prod.fst).Nodup) :
    List.Forall₂ RecEquiv (find_table_differences (create_universe N) N)
      (find_table_differences (create_universe Np) Np) := by
  rw [find_table_differences, find_table_differences, ← all_tables_perm_eq N Np hperm]
  exact forall₂_filterMap _ _ _ (fun t _ => tableDiffRow_rel N Np hperm hnd t)

theorem columnDiffRow_rel (N Np : List (String × DataFrame)) (hperm : N.Perm Np)
    (hnd : (N.map Prod.fst).Nodup) (t c : Value) :
    (columnDiffRow (create_universe N) N t c = none ∧
      columnDiffRow (create_universe Np) Np t c = none) ∨
    ∃ b b', columnDiffRow (create_universe N) N t c = some b ∧
      columnDiffRow (create_universe Np) Np t c = some b' ∧ RecEquiv b b' := by
  have hWT : (schemasWithTable N t).Perm (schemasWithTable Np t) := hperm.filter _
  have hstat : ((schemasWithTable N t).map
      (fun p => (p.1, columnStatus p.2 t c))).Perm
      ((schemasWithTable Np t).map (fun p => (p.1, columnStatus p.2 t c))) := hWT.map _
  have hkeys : (((schemasWithTable N t).map
      (fun p => (p.1, columnStatus p.2 t c))).map Prod.fst).Nodup := by
    rw [List.map_map]
    exact List.Nodup.sublist ((List.filter_sublist N).map Prod.fst) hnd
  have hmisslen : ((((schemasWithTable N t).map
      (fun p => (p.1, columnStatus p.2 t c))).filter
      (fun q => q.2 == "MISSING")).length)
      = ((((schemasWithTable Np t).map
      (fun p => (p.1, columnStatus p.2 t c))).filter
      (fun q => q.2 == "MISSING")).length) := (hstat.filter _).length_eq
  have hwtlen : (schemasWithTable N t).length = (schemasWithTable Np t).length :=
    hWT.length_eq
  simp only [columnDiffRow]
  rw [← hmisslen, ← hwtlen]
  by_cases hcond : 0 < (((schemasWithTable N t).map
      (fun p => (p.1, columnStatus p.2 t c))).filter
      (fun q => q.2 == "MISSING")).length ∧
      (((schemasWithTable N t).map
      (fun p => (p.1, columnStatus p.2 t c))).filter
      (fun q => q.2 == "MISSING")).length < (schemasWithTable N t).length
  · rw [if_pos hcond, if_pos hcond]
    have hent := entries_rel
      (fun n => match ((schemasWithTable N t).map
          (fun p => (p.1, columnStatus p.2 t c))).lookup n with
        | some s => s
        | none => "N/A")
      (fun n => match ((schemasWithTable Np t).map
          (fun p => (p.1, columnStatus p.2 t c))).lookup n with
        | some s => s
        | none => "N/A")
      (N.map Prod.fst) (Np.map Prod.fst) (hperm.map _)
      (fun n => by
        simp only []
        rw [lookup_eq_of_perm hstat n hkeys])
    exact Or.inr ⟨_, _, rfl, rfl, rfl, rfl, rfl, hent.1, hent.2⟩
  · rw [if_neg hcond, if_neg hcond]
    exact Or.inl ⟨rfl, rfl⟩

theorem find_column_differences_rel (N Np : List (String × DataFrame))
    (hperm : N.Perm Np) (hnd : (N.map Prod.fst).Nodup) :
    List.Forall₂ RecEquiv (find_column_differences (create_universe N) N)
      (find_column_differences (create_universe Np) Np) := by
  rw [find_column_differences, find_column_differences,
    ← all_tables_perm_eq N Np hperm]
  refine forall₂_flatMap _ _ _ ?_
  intro t _
  have hwtlen : (schemasWithTable N t).length = (schemasWithTable Np t).length :=
    (hperm.filter _).length_eq
  rw [colsFor_perm_eq N Np hperm t, ← hwtlen]
  by_cases hlen : (schemasWithTable N t).length ≤ 1
  · rw [if_pos hlen, if_pos hlen]
    exact List.Forall₂.nil
  · rw [if_neg hlen, if_neg hlen]
    exact forall₂_filterMap _ _ _ (fun c _ => columnDiffRow_rel N Np hperm hnd t c)

theorem attrInfos_fst (schemas : List (String × DataFrame)) (t c : Value) :
    (((attrInfos schemas t c).map Prod.fst).Sublist (schemas.map Prod.fst)) := by
  refine filterMap_fst_sublist schemas _ ?_
  intro p q hpq
  by_cases hg : (p.2.isEmpty || !p.2.hasCol "TABLE_NAME" || !p.2.hasCol "COLUMN_NAME")
      = true
  · rw [if_pos hg] at hpq
    cases hpq
  · rw [if_neg hg] at hpq
    cases hrows : ((p.2.filterEq "TABLE_NAME" t).filterEq "COLUMN_NAME" c).rows with
    | nil =>
      rw [hrows] at hpq
      cases hpq
    | cons r rest =>
      rw [hrows] at hpq
      cases hpq
      rfl

theorem attrDiffRow_rel (N Np : List (String × DataFrame)) (hperm : N.Perm Np)
    (hnd : (N.map Prod.fst).Nodup)
    (hlast : (lastCols N).contains attr = (lastCols Np).contains attr)
    (t c : Value) :
    (attrDiffRow (create_universe N) N t c attr = none ∧
      attrDiffRow (create_universe Np) Np t c attr = none) ∨
    ∃ b b', attrDiffRow (create_universe N) N t c attr = some b ∧
      attrDiffRow (create_universe Np) Np t c attr = some b' ∧ RecEquiv b b' := by
  have hinfos : (attrInfos N t c).Perm (attrInfos Np t c) := hperm.filterMap _
  have hvals : (attrVals (attrInfos N t c) attr).Perm
      (attrVals (attrInfos Np t c) attr) := hinfos.map _
  have hkeys : ((attrVals (attrInfos N t c) attr).map Prod.fst).Nodup := by
    unfold attrVals
    rw [List.map_map]
    exact List.Nodup.sublist (attrInfos_fst N t c) hnd
  have hdedlen : ((attrVals (attrInfos N t c) attr).map Prod.snd).dedup.length
      = ((attrVals (attrInfos Np t c) attr).map Prod.snd).dedup.length :=
    ((hvals.map _).dedup).length_eq
  have hconv : ∀ (vals : List (String × Option Value)) (names : List String),
      names.map (fun n => match vals.lookup n with
        | some v => (n, strOrNULL v)
        | none => (n, "N/A"))
      = names.map (fun n => (n, match vals.lookup n with
        | some v => strOrNULL v
        | none => "N/A")) := by
    intro vals names
    refine List.map_congr_left ?_
    intro n _
    cases vals.lookup n <;> rfl
  simp only [attrDiffRow]
  rw [← hlast, ← hdedlen]
  cases hl : (lastCols N).contains attr with
  | false => exact Or.inl ⟨rfl, rfl⟩
  | true =>
    have houter : ¬((!true) = true) := by decide
    rw [if_neg houter, if_neg houter]
    by_cases hd : 1 < ((attrVals (attrInfos N t c) attr).map Prod.snd).dedup.length
    · rw [if_pos hd, if_pos hd]
      have hent := entries_rel
        (fun n => match (attrVals (attrInfos N t c) attr).lookup n with
          | some v => strOrNULL v
          | none => "N/A")
        (fun n => match (attrVals (attrInfos Np t c) attr).lookup n with
          | some v => strOrNULL v
          | none => "N/A")
        (N.map Prod.fst) (Np.map Prod.fst) (hperm.map _)
        (fun n => by
          simp only []
          rw [lookup_eq_of_perm hvals n hkeys])
      refine Or.inr ⟨_, _, rfl, rfl, rfl, rfl, rfl, ?_, ?_⟩
      · intro m
        show ((N.map Prod.fst).map (fun n =>
            match (attrVals (attrInfos N t c) attr).lookup n with
            | some v => (n, strOrNULL v)
            | none => (n, "N/A"))).lookup m
          = ((Np.map Prod.fst).map (fun n =>
            match (attrVals (attrInfos Np t c) attr).lookup n with
            | some v => (n, strOrNULL v)
            | none => (n, "N/A"))).lookup m
        rw [hconv, hconv]
        exact hent.1 m
      · show (((N.map Prod.fst).map (fun n =>
            match (attrVals (attrInfos N t c) attr).lookup n with
            | some v => (n, strOrNULL v)
            | none => (n, "N/A"))).map Prod.fst).Perm
          (((Np.map Prod.fst).map (fun n =>
            match (attrVals (attrInfos Np t c) attr).lookup n with
            | some v => (n, strOrNULL v)
            | none => (n, "N/A"))).map Prod.fst)
        rw [hconv, hconv]
        exact hent.2
    · rw [if_neg hd, if_neg hd]
      exact Or.inl ⟨rfl, rfl⟩

theorem find_attribute_differences_rel (N Np : List (String × DataFrame))
    (hperm : N.Perm Np) (hnd : (N.map Prod.fst).Nodup)
    (hlast : ∀ a ∈ attrSet,
      (lastCols N).contains a = (lastCols Np).contains a) :
    List.Forall₂ RecEquiv (find_attribute_differences (create_universe N) N)
      (find_attribute_differences (create_universe Np) Np) := by
  rw [find_attribute_differences, find_attribute_differences,
    ← all_tables_perm_eq N Np hperm]
  refine forall₂_flatMap _ _ _ ?_
  intro t _
  rw [colsFor_perm_eq N Np hperm t]
  refine forall₂_flatMap _ _ _ ?_
  intro c _
  have hillen : (attrInfos N t c).length = (attrInfos Np t c).length :=
    (hperm.filterMap _).length_eq
  rw [← hillen]
  by_cases hl2 : (attrInfos N t c).length < 2
  · rw [if_pos hl2, if_pos hl2]
    exact List.Forall₂.nil
  · rw [if_neg hl2, if_neg hl2]
    exact forall₂_filterMap _ _ _
      (fun attr hattr => attrDiffRow_rel N Np hperm hnd (hlast attr hattr) t c)

/-- Claim C8 as amended: permuting the insertion order of the sources
yields a content-identical output — pairwise `RecEquiv` difference
records and the same error behaviour — provided the valid sources agree
on which of the five compared attribute columns they contain (the stale
last-source column guard of the attribute detector makes the unrestricted
claim false, see the counterexample). -/
theorem C8_order_independence_amended (schemas schemas' : List (String × Option DataFrame))
    (hperm : schemas.Perm schemas')
    (hnd : (schemas.map Prod.fst).Nodup)
    (hattr : ∀ a ∈ attrSet, ∀ p ∈ normalize_schemas schemas,
        ∀ q ∈ normalize_schemas schemas, p.2.cols.contains a = q.2.cols.contains a) :
    List.Forall₂ RecEquiv (recordsOf (compare_all_schemas schemas))
      (recordsOf (compare_all_schemas schemas')) ∧
    (compare_all_schemas schemas = CompareResult.errorEmpty ↔
      compare_all_schemas schemas' = CompareResult.errorEmpty) := by
  have hpermN : (normalize_schemas schemas).Perm (normalize_schemas schemas') :=
    hperm.filterMap _
  have hndN : ((normalize_schemas schemas).map Prod.fst).Nodup := by
    refine List.Nodup.sublist ?_ hnd
    refine filterMap_fst_sublist schemas _ ?_
    intro p q hpq
    obtain ⟨nm, d?⟩ := p
    cases d? with
    | none => simp at hpq
    | some d =>
      dsimp only at hpq
      by_cases he : d.isEmpty
      · rw [if_pos he] at hpq
        cases hpq
      · rw [if_neg he] at hpq
        cases hpq
        rfl
  have hlast : ∀ a ∈ attrSet, (lastCols (normalize_schemas schemas)).contains a
      = (lastCols (normalize_schemas schemas')).contains a :=
    fun a ha => lastCols_contains_eq _ _ hpermN a (hattr a ha)
  have hlen : schemas.length = schemas'.length := hperm.length_eq
  have hempN : (normalize_schemas schemas).isEmpty
      = (normalize_schemas schemas').isEmpty := perm_isEmpty hpermN
  have hAll : List.Forall₂ RecEquiv
      (find_table_differences (create_universe (normalize_schemas schemas))
          (normalize_schemas schemas)
        ++ find_column_differences (create_universe (normalize_schemas schemas))
          (normalize_schemas schemas)
        ++ find_attribute_differences (create_universe (normalize_schemas schemas))
          (normalize_schemas schemas))
      (find_table_differences (create_universe (normalize_schemas schemas'))
          (normalize_schemas schemas')
        ++ find_column_differences (create_universe (normalize_schemas schemas'))
          (normalize_schemas schemas')
        ++ find_attribute_differences (create_universe (normalize_schemas schemas'))
          (normalize_schemas schemas')) :=
    forall₂_append
      (forall₂_append (find_table_differences_rel _ _ hpermN hndN)
        (find_column_differences_rel _ _ hpermN hndN))
      (find_attribute_differences_rel _ _ hpermN hndN hlast)
  have hAllEmp : (find_table_differences (create_universe (normalize_schemas schemas))
          (normalize_schemas schemas)
        ++ find_column_differences (create_universe (normalize_schemas schemas))
          (normalize_schemas schemas)
        ++ find_attribute_differences (create_universe (normalize_schemas schemas))
          (normalize_schemas schemas)).isEmpty
      = (find_table_differences (create_universe (normalize_schemas schemas'))
          (normalize_schemas schemas')
        ++ find_column_differences (create_universe (normalize_schemas schemas'))
          (normalize_schemas schemas')
        ++ find_attribute_differences (create_universe (normalize_schemas schemas'))
          (normalize_schemas schemas')).isEmpty :=
    isEmpty_eq_of_length_eq hAll.length_eq
  simp only [compare_all_schemas]
  by_cases h2 : schemas.length < 2
  · have h2' : schemas'.length < 2 := by
      rw [← hlen]
      exact h2
    rw [if_pos h2, if_pos h2']
    exact ⟨List.Forall₂.nil, Iff.rfl⟩
  · have h2' : ¬ schemas'.length < 2 := by
      rw [← hlen]
      exact h2
    rw [if_neg h2, if_neg h2']
    by_cases hE : (normalize_schemas schemas).isEmpty = true
    · have hE' : (normalize_schemas schemas').isEmpty = true := by
        rw [← hempN]
        exact hE
      rw [if_pos hE, if_pos hE']
      exact ⟨List.Forall₂.nil, Iff.rfl⟩
    · have hE' : ¬ (normalize_schemas schemas').isEmpty = true := by
        rw [← hempN]
        exact hE
      rw [if_neg hE, if_neg hE']
      by_cases hD : (find_table_differences (create_universe (normalize_schemas schemas))
            (normalize_schemas schemas)
          ++ find_column_differences (create_universe (normalize_schemas schemas))
            (normalize_schemas schemas)
          ++ find_attribute_differences (create_universe (normalize_schemas schemas))
            (normalize_schemas schemas)).isEmpty = true
      · have hD' := hD
        rw [hAllEmp] at hD'
        rw [if_pos hD, if_pos hD']
        exact ⟨List.Forall₂.nil,
          ⟨fun hx => CompareResult.noConfusion hx, fun hx => CompareResult.noConfusion hx⟩⟩
      · have hD' := hD
        rw [hAllEmp] at hD'
        rw [if_neg hD, if_neg hD']
        exact ⟨hAll,
          ⟨fun hx => CompareResult.noConfusion hx, fun hx => CompareResult.noConfusion hx⟩⟩

/-- Witness for claim C8 on two homogeneous sources in both orders. -/
theorem C8_order_independence_witness :
    List.Forall₂ RecEquiv
      (recordsOf (compare_all_schemas [("S1", some s1w), ("S2", some s2w)]))
      (recordsOf (compare_all_schemas [("S2", some s2w), ("S1", some s1w)])) ∧
    (compare_all_schemas [("S1", some s1w), ("S2", some s2w)] = CompareResult.errorEmpty ↔
      compare_all_schemas [("S2", some s2w), ("S1", some s1w)] = CompareResult.errorEmpty) :=
  C8_order_independence_amended [("S1", some s1w), ("S2", some s2w)]
    [("S2", some s2w), ("S1", some s1w)]
    (List.Perm.swap ("S2", some s2w) ("S1", some s1w) [])
    (by decide) (by decide)
